import Mathlib

/-!
Shallow embedding of the tasker.js one-shot task scheduler.

The repository ships two variants of the same `TaskManager` class:
the bundled module `index.esm.mjs`, whose `_scheduleTask` always arms a
timer (delay `0` when the target time is not in the future), and the
rollup input `src/task.js` (embedded in `rollup.config.js`), whose
`_scheduleTask` executes a past-due task synchronously inline.
Both variants share `_executeTask`, `cancelTask`, `getTasks` and the
`rescheduleTask` shape.

The JavaScript `Map` is modelled as an insertion-ordered association
list; `setTimeout`/`clearTimeout` as a queue of pending single-shot
timers with fresh numeric handles.  A callback is opaque except for an
identity and whether invoking it raises; `log` is a history variable
recording every callback invocation `(taskId, cbId)` in order, and
`createdIds` a history variable recording the ids returned by
`createTask`, in order.  Neither history variable influences behaviour.
-/

namespace Tasker

/-- Opaque callback value: an identity plus whether calling it raises. -/
structure Callback where
  cbId : Nat
  throws : Bool
deriving Repr, DecidableEq

/-- The `Task` record of the source: id, targetTime, callback, timeoutId
(initially `null`, modelled as `none`).  Times are milliseconds since epoch. -/
structure Task where
  id : Nat
  targetTime : Int
  callback : Callback
  timeoutId : Option Nat
deriving Repr, DecidableEq

/-- A pending single-shot timer of the host: its handle, the absolute
time at which it becomes due, and the task id captured by the
`() => this._executeTask(task.id)` closure. -/
structure Timer where
  tid : Nat
  fireAt : Int
  taskId : Nat
deriving Repr, DecidableEq

/-- Whole-world state: the `TaskManager` fields (`tasks`, `nextTaskId`),
the host timer facility (`timers`, `nextTimerId`, `now`), and the two
history variables `log` and `createdIds`. -/
structure Sys where
  tasks : List (Nat × Task)
  nextTaskId : Nat
  timers : List Timer
  nextTimerId : Nat
  now : Int
  log : List (Nat × Nat)
  createdIds : List Nat
deriving Repr, DecidableEq

/-- `Map.prototype.get`. -/
def mapGet (m : List (Nat × Task)) (k : Nat) : Option Task :=
  (m.find? (fun p => p.1 == k)).map Prod.snd

/-- `Map.prototype.set`: update in place when the key is present
(keeping its insertion position), otherwise append. -/
def mapSet (m : List (Nat × Task)) (k : Nat) (v : Task) : List (Nat × Task) :=
  match m with
  | [] => [(k, v)]
  | p :: rest => if p.1 == k then (k, v) :: rest else p :: mapSet rest k v

/-- `Map.prototype.delete` (ignoring the returned boolean). -/
def mapDelete (m : List (Nat × Task)) (k : Nat) : List (Nat × Task) :=
  m.filter (fun p => p.1 != k)

/-- `setTimeout(() => this._executeTask(taskId), delay)`: registers a
pending timer under a fresh handle and returns the handle. -/
def setTimeout (s : Sys) (taskId : Nat) (delay : Int) : Nat × Sys :=
  (s.nextTimerId,
   { s with timers := s.timers ++ [⟨s.nextTimerId, s.now + delay, taskId⟩],
            nextTimerId := s.nextTimerId + 1 })

/-- `clearTimeout(h)`: removes the pending timer with handle `h`; a
no-op on `null` or on an already-fired or unknown handle. -/
def clearTimeout (s : Sys) (h : Option Nat) : Sys :=
  match h with
  | none => s
  | some t => { s with timers := s.timers.filter (fun x => x.tid != t) }

/-- `_executeTask(taskId)` (identical in both variants): look the id up;
if absent do nothing; else invoke the callback and, only if the callback
returned normally, delete the entry — the source has no try/finally, so
a raising callback skips the `delete`.  The boolean is `true` iff an
exception escaped. -/
def executeTask (s : Sys) (taskId : Nat) : Sys × Bool :=
  match mapGet s.tasks taskId with
  | some task =>
      let s1 := { s with log := s.log ++ [(taskId, task.callback.cbId)] }
      if task.callback.throws then (s1, true)
      else ({ s1 with tasks := mapDelete s1.tasks taskId }, false)
  | none => (s, false)

/-- `_scheduleTask(task)` of `index.esm.mjs`: always arms a timer, with
delay `timeUntilTarget` when positive and `0` otherwise, then stores the
handle on the task (the map entry aliases the mutated object). -/
def scheduleTask (s : Sys) (task : Task) : Sys :=
  let timeUntilTarget : Int := task.targetTime - s.now
  if timeUntilTarget > 0 then
    let r := setTimeout s task.id timeUntilTarget
    { r.2 with tasks := mapSet r.2.tasks task.id { task with timeoutId := some r.1 } }
  else
    let r := setTimeout s task.id 0
    { r.2 with tasks := mapSet r.2.tasks task.id { task with timeoutId := some r.1 } }

/-- `_scheduleTask(task)` of `src/task.js` (embedded in
`rollup.config.js`): a positive delay arms a timer, otherwise the task
is executed immediately, synchronously, via `_executeTask`.  The boolean
is `true` iff an inline execution raised. -/
def scheduleTaskJS (s : Sys) (task : Task) : Sys × Bool :=
  let timeUntilTarget : Int := task.targetTime - s.now
  if timeUntilTarget > 0 then
    let r := setTimeout s task.id timeUntilTarget
    ({ r.2 with tasks := mapSet r.2.tasks task.id { task with timeoutId := some r.1 } }, false)
  else
    executeTask s task.id

/-- `createTask(targetTime, callback)` of `index.esm.mjs`: allocate the
next id, insert the record, schedule it, return the id. -/
def createTask (s : Sys) (targetTime : Int) (cb : Callback) : Nat × Sys :=
  let taskId := s.nextTaskId
  let task : Task := { id := taskId, targetTime := targetTime, callback := cb, timeoutId := none }
  let s1 := { s with nextTaskId := taskId + 1,
                     tasks := mapSet s.tasks taskId task,
                     createdIds := s.createdIds ++ [taskId] }
  (taskId, scheduleTask s1 task)

/-- `createTask(targetTime, callback)` of `src/task.js`: as the bundled
variant, but a past-due task is executed inline, and if its callback
raises, the exception escapes `createTask` before `return taskId` —
modelled as result `none`. -/
def createTaskJS (s : Sys) (targetTime : Int) (cb : Callback) : Option Nat × Sys :=
  let taskId := s.nextTaskId
  let task : Task := { id := taskId, targetTime := targetTime, callback := cb, timeoutId := none }
  let s1 := { s with nextTaskId := taskId + 1,
                     tasks := mapSet s.tasks taskId task,
                     createdIds := s.createdIds ++ [taskId] }
  let r := scheduleTaskJS s1 task
  if r.2 then (none, r.1) else (some taskId, r.1)

/-- `cancelTask(taskId)` (both variants): unknown id returns `false`
with no effect; else clear the stored timeout handle, delete the entry,
return `true`. -/
def cancelTask (s : Sys) (taskId : Nat) : Bool × Sys :=
  match mapGet s.tasks taskId with
  | some task =>
      let s1 := clearTimeout s task.timeoutId
      (true, { s1 with tasks := mapDelete s1.tasks taskId })
  | none => (false, s)

/-- `getTasks()` (both variants): a fresh array of `{id, targetTime}`
projections of the current map values, in map iteration order. -/
def getTasks (s : Sys) : List (Nat × Int) :=
  s.tasks.map (fun p => (p.2.id, p.2.targetTime))

/-- `rescheduleTask(taskId, newTargetTime)` of `index.esm.mjs`: unknown
id returns `false`; else clear the old handle, overwrite `targetTime`
(the map entry aliases the mutated object), re-run `_scheduleTask`,
return `true`. -/
def rescheduleTask (s : Sys) (taskId : Nat) (newTargetTime : Int) : Bool × Sys :=
  match mapGet s.tasks taskId with
  | some task =>
      let s1 := clearTimeout s task.timeoutId
      let task1 := { task with targetTime := newTargetTime }
      let s2 := { s1 with tasks := mapSet s1.tasks taskId task1 }
      (true, scheduleTask s2 task1)
  | none => (false, s)

/-- `rescheduleTask(taskId, newTargetTime)` of `src/task.js`: as the
bundled variant but through the inline-executing `_scheduleTask`; when
an inline execution raises, the exception escapes before `return true` —
modelled as result `none`. -/
def rescheduleTaskJS (s : Sys) (taskId : Nat) (newTargetTime : Int) : Option Bool × Sys :=
  match mapGet s.tasks taskId with
  | some task =>
      let s1 := clearTimeout s task.timeoutId
      let task1 := { task with targetTime := newTargetTime }
      let s2 := { s1 with tasks := mapSet s1.tasks taskId task1 }
      let r := scheduleTaskJS s2 task1
      if r.2 then (none, r.1) else (some true, r.1)
  | none => (some false, s)

/-- A pending timer whose due time has been reached fires: it is
consumed and the captured `_executeTask(taskId)` runs; any exception the
callback raises goes to the event loop, not to registry code. -/
def fireTimer (s : Sys) (tid : Nat) : Sys :=
  match s.timers.find? (fun x => x.tid == tid) with
  | some tmr =>
      if s.now ≥ tmr.fireAt then
        (executeTask { s with timers := s.timers.filter (fun x => x.tid != tid) } tmr.taskId).1
      else s
  | none => s

/-- Externally observable events against one registry instance, driven
by the single-threaded event loop of the host. -/
inductive Event where
  | create (targetTime : Int) (cb : Callback)
  | cancel (taskId : Nat)
  | resched (taskId : Nat) (newTargetTime : Int)
  | snapshot
  | fire (tid : Nat)
  | tick (d : Nat)
deriving Repr, DecidableEq

/-- Small-step semantics over the bundled (`index.esm.mjs`) variant. -/
def step (s : Sys) (e : Event) : Sys :=
  match e with
  | .create t cb => (createTask s t cb).2
  | .cancel taskId => (cancelTask s taskId).2
  | .resched taskId t => (rescheduleTask s taskId t).2
  | .snapshot => s
  | .fire tid => fireTimer s tid
  | .tick d => { s with now := s.now + d }

/-- Run a list of events from a state. -/
def run (s : Sys) (evs : List Event) : Sys :=
  evs.foldl step s

/-- A freshly constructed `TaskManager`, at an arbitrary clock origin. -/
def init : Sys :=
  { tasks := [], nextTaskId := 1, timers := [], nextTimerId := 1,
    now := 0, log := [], createdIds := [] }

/-- Keys of the task map, in insertion order. -/
def keysOf (m : List (Nat × Task)) : List Nat := m.map Prod.fst

/-- Task ids of all callback invocations so far, in order. -/
def logIds (s : Sys) : List Nat := s.log.map Prod.fst

/-- Task ids that still have a pending timer. -/
def liveTaskIds (s : Sys) : List Nat := s.timers.map Timer.taskId

/-- Events whose created callbacks never raise; other events are
unrestricted. -/
def eventOk : Event → Prop
  | .create _ cb => cb.throws = false
  | _ => True

instance (e : Event) : Decidable (eventOk e) := by
  cases e <;> simp [eventOk] <;> infer_instance

/-! Association-list lemmas for the `Map` model. -/

lemma mapGet_nil (k : Nat) : mapGet [] k = none := rfl

lemma keysOf_cons (p : Nat × Task) (m : List (Nat × Task)) :
    keysOf (p :: m) = p.1 :: keysOf m := rfl

lemma mapGet_cons (p : Nat × Task) (m : List (Nat × Task)) (k : Nat) :
    mapGet (p :: m) k = if p.1 = k then some p.2 else mapGet m k := by
  by_cases h : p.1 = k <;> simp [mapGet, List.find?_cons, h]

lemma mapSet_cons_eq (p : Nat × Task) (m : List (Nat × Task)) (k : Nat) (v : Task)
    (h : p.1 = k) : mapSet (p :: m) k v = (k, v) :: m := by
  simp [mapSet, h]

lemma mapSet_cons_ne (p : Nat × Task) (m : List (Nat × Task)) (k : Nat) (v : Task)
    (h : p.1 ≠ k) : mapSet (p :: m) k v = p :: mapSet m k v := by
  simp [mapSet, h]

lemma mapDelete_cons_eq (p : Nat × Task) (m : List (Nat × Task)) (k : Nat)
    (h : p.1 = k) : mapDelete (p :: m) k = mapDelete m k := by
  simp [mapDelete, List.filter_cons, h]

lemma mapDelete_cons_ne (p : Nat × Task) (m : List (Nat × Task)) (k : Nat)
    (h : p.1 ≠ k) : mapDelete (p :: m) k = p :: mapDelete m k := by
  simp [mapDelete, List.filter_cons, h]

lemma mapGet_eq_none_iff (m : List (Nat × Task)) (k : Nat) :
    mapGet m k = none ↔ k ∉ keysOf m := by
  induction m with
  | nil => simp [mapGet, keysOf]
  | cons p rest ih =>
      rw [mapGet_cons, keysOf_cons]
      by_cases h : p.1 = k
      · simp [h]
      · rw [if_neg h, ih]
        simp only [List.mem_cons]
        constructor
        · intro hc hm
          rcases hm with hm | hm
          · exact h hm.symm
          · exact hc hm
        · intro hc hm
          exact hc (Or.inr hm)

lemma mapGet_mem (m : List (Nat × Task)) (k : Nat) (v : Task)
    (h : mapGet m k = some v) : (k, v) ∈ m := by
  induction m with
  | nil => simp [mapGet] at h
  | cons p rest ih =>
      rw [mapGet_cons] at h
      by_cases hp : p.1 = k
      · rw [if_pos hp] at h
        have hv : p.2 = v := by simpa using h
        have hpkv : p = (k, v) := by
          cases p
          simp_all
        rw [← hpkv]
        exact List.mem_cons_self _ _
      · rw [if_neg hp] at h
        exact List.mem_cons.2 (Or.inr (ih h))

lemma mapGet_mem_keysOf (m : List (Nat × Task)) (k : Nat) (v : Task)
    (h : mapGet m k = some v) : k ∈ keysOf m :=
  List.mem_map.2 ⟨(k, v), mapGet_mem m k v h, rfl⟩

lemma keysOf_mapSet_mem (m : List (Nat × Task)) (k : Nat) (v : Task)
    (h : k ∈ keysOf m) : keysOf (mapSet m k v) = keysOf m := by
  induction m with
  | nil => simp [keysOf] at h
  | cons p rest ih =>
      by_cases hp : p.1 = k
      · rw [mapSet_cons_eq p rest k v hp, keysOf_cons, keysOf_cons, hp]
      · have hr : k ∈ keysOf rest := by
          rcases List.mem_cons.1 (by rwa [keysOf_cons] at h) with h1 | h1
          · exact absurd h1.symm hp
          · exact h1
        rw [mapSet_cons_ne p rest k v hp, keysOf_cons, keysOf_cons, ih hr]

lemma keysOf_mapSet_not_mem (m : List (Nat × Task)) (k : Nat) (v : Task)
    (h : k ∉ keysOf m) : keysOf (mapSet m k v) = keysOf m ++ [k] := by
  induction m with
  | nil => simp [mapSet, keysOf]
  | cons p rest ih =>
      have hp : p.1 ≠ k := by
        intro hc
        exact h (by rw [keysOf_cons]; exact List.mem_cons.2 (Or.inl hc.symm))
      have hr : k ∉ keysOf rest := by
        intro hc
        exact h (by rw [keysOf_cons]; exact List.mem_cons.2 (Or.inr hc))
      rw [mapSet_cons_ne p rest k v hp, keysOf_cons, keysOf_cons, ih hr]
      rfl

lemma mapGet_mapSet_self (m : List (Nat × Task)) (k : Nat) (v : Task) :
    mapGet (mapSet m k v) k = some v := by
  induction m with
  | nil => simp [mapSet, mapGet_cons]
  | cons p rest ih =>
      by_cases hp : p.1 = k
      · rw [mapSet_cons_eq p rest k v hp, mapGet_cons, if_pos rfl]
      · rw [mapSet_cons_ne p rest k v hp, mapGet_cons, if_neg hp, ih]

lemma mapGet_mapSet_ne (m : List (Nat × Task)) (k k2 : Nat) (v : Task)
    (h : k2 ≠ k) : mapGet (mapSet m k v) k2 = mapGet m k2 := by
  induction m with
  | nil =>
      rw [show mapSet [] k v = [(k, v)] from rfl, mapGet_cons]
      rw [if_neg (fun hc : k = k2 => h hc.symm)]
  | cons p rest ih =>
      by_cases hp : p.1 = k
      · rw [mapSet_cons_eq p rest k v hp, mapGet_cons, mapGet_cons]
        rw [if_neg (fun hc : k = k2 => h hc.symm)]
        rw [if_neg (by rw [hp]; exact fun hc : k = k2 => h hc.symm)]
      · rw [mapSet_cons_ne p rest k v hp, mapGet_cons, mapGet_cons, ih]

lemma mapSet_mapSet (m : List (Nat × Task)) (k : Nat) (v w : Task) :
    mapSet (mapSet m k v) k w = mapSet m k w := by
  induction m with
  | nil => simp [mapSet]
  | cons p rest ih =>
      by_cases hp : p.1 = k
      · rw [mapSet_cons_eq p rest k v hp, mapSet_cons_eq _ rest k w rfl,
            mapSet_cons_eq p rest k w hp]
      · rw [mapSet_cons_ne p rest k v hp, mapSet_cons_ne p _ k w hp,
            mapSet_cons_ne p rest k w hp, ih]

lemma mem_mapSet (m : List (Nat × Task)) (k : Nat) (v : Task) (p : Nat × Task)
    (h : p ∈ mapSet m k v) : p = (k, v) ∨ p ∈ m := by
  induction m with
  | nil => simpa [mapSet] using h
  | cons q rest ih =>
      by_cases hq : q.1 = k
      · rw [mapSet_cons_eq q rest k v hq] at h
        rcases List.mem_cons.1 h with h | h
        · exact Or.inl h
        · exact Or.inr (List.mem_cons.2 (Or.inr h))
      · rw [mapSet_cons_ne q rest k v hq] at h
        rcases List.mem_cons.1 h with h | h
        · exact Or.inr (List.mem_cons.2 (Or.inl h))
        · rcases ih h with h2 | h2
          · exact Or.inl h2
          · exact Or.inr (List.mem_cons.2 (Or.inr h2))

lemma mapGet_mapDelete_self (m : List (Nat × Task)) (k : Nat) :
    mapGet (mapDelete m k) k = none := by
  rw [mapGet_eq_none_iff]
  intro hc
  rcases List.mem_map.1 hc with ⟨p, hp, hk⟩
  rcases List.mem_filter.1 hp with ⟨_, hne⟩
  have hne2 : p.1 ≠ k := by simpa using hne
  exact hne2 hk

lemma mapGet_mapDelete_ne (m : List (Nat × Task)) (k k2 : Nat)
    (h : k2 ≠ k) : mapGet (mapDelete m k) k2 = mapGet m k2 := by
  induction m with
  | nil => simp [mapDelete]
  | cons p rest ih =>
      by_cases hp : p.1 = k
      · have hne : p.1 ≠ k2 := by
          rw [hp]
          exact Ne.symm h
        rw [mapDelete_cons_eq p rest k hp, ih, mapGet_cons, if_neg hne]
      · rw [mapDelete_cons_ne p rest k hp, mapGet_cons, mapGet_cons, ih]

lemma keysOf_mapDelete (m : List (Nat × Task)) (k : Nat) :
    keysOf (mapDelete m k) = (keysOf m).filter (fun x => x != k) := by
  induction m with
  | nil => rfl
  | cons p rest ih =>
      by_cases hp : p.1 = k
      · rw [mapDelete_cons_eq p rest k hp, ih, keysOf_cons, List.filter_cons]
        simp [hp]
      · rw [mapDelete_cons_ne p rest k hp, keysOf_cons, keysOf_cons,
            List.filter_cons, ih]
        simp [hp]

lemma mem_mapDelete (m : List (Nat × Task)) (k : Nat) (p : Nat × Task)
    (h : p ∈ mapDelete m k) : p ∈ m ∧ p.1 ≠ k := by
  rcases List.mem_filter.1 h with ⟨h1, h2⟩
  exact ⟨h1, by simpa using h2⟩

/-! Characterisations of the operations. -/

/-- Absolute due time the bundled `_scheduleTask` gives the armed timer:
the target time when still in the future, otherwise the present instant
(a zero-delay timer). -/
def dueAt (s : Sys) (t : Int) : Int := if t - s.now > 0 then t else s.now

@[simp] lemma clearTimeout_tasks (s : Sys) (h : Option Nat) :
    (clearTimeout s h).tasks = s.tasks := by cases h <;> rfl

@[simp] lemma clearTimeout_nextTaskId (s : Sys) (h : Option Nat) :
    (clearTimeout s h).nextTaskId = s.nextTaskId := by cases h <;> rfl

@[simp] lemma clearTimeout_nextTimerId (s : Sys) (h : Option Nat) :
    (clearTimeout s h).nextTimerId = s.nextTimerId := by cases h <;> rfl

@[simp] lemma clearTimeout_now (s : Sys) (h : Option Nat) :
    (clearTimeout s h).now = s.now := by cases h <;> rfl

@[simp] lemma clearTimeout_log (s : Sys) (h : Option Nat) :
    (clearTimeout s h).log = s.log := by cases h <;> rfl

@[simp] lemma clearTimeout_createdIds (s : Sys) (h : Option Nat) :
    (clearTimeout s h).createdIds = s.createdIds := by cases h <;> rfl

lemma scheduleTask_eq (s : Sys) (task : Task) :
    scheduleTask s task =
      { s with
        tasks := mapSet s.tasks task.id { task with timeoutId := some s.nextTimerId },
        timers := s.timers ++ [⟨s.nextTimerId, dueAt s task.targetTime, task.id⟩],
        nextTimerId := s.nextTimerId + 1 } := by
  have harith : s.now + (task.targetTime - s.now) = task.targetTime := by ring
  unfold scheduleTask setTimeout dueAt
  by_cases h : task.targetTime - s.now > 0 <;> simp [h, harith]

lemma createTask_eq (s : Sys) (t : Int) (cb : Callback) :
    createTask s t cb =
      (s.nextTaskId,
       { tasks := mapSet s.tasks s.nextTaskId
           ⟨s.nextTaskId, t, cb, some s.nextTimerId⟩,
         nextTaskId := s.nextTaskId + 1,
         timers := s.timers ++ [⟨s.nextTimerId, dueAt s t, s.nextTaskId⟩],
         nextTimerId := s.nextTimerId + 1,
         now := s.now,
         log := s.log,
         createdIds := s.createdIds ++ [s.nextTaskId] }) := by
  simp only [createTask, scheduleTask_eq]
  simp [mapSet_mapSet, dueAt]

lemma cancelTask_none (s : Sys) (taskId : Nat)
    (h : mapGet s.tasks taskId = none) : cancelTask s taskId = (false, s) := by
  unfold cancelTask
  rw [h]

lemma cancelTask_some (s : Sys) (taskId : Nat) (tk : Task)
    (h : mapGet s.tasks taskId = some tk) :
    cancelTask s taskId =
      (true, { s with tasks := mapDelete s.tasks taskId,
                      timers := (clearTimeout s tk.timeoutId).timers }) := by
  unfold cancelTask
  rw [h]
  simp

lemma executeTask_none (s : Sys) (taskId : Nat)
    (h : mapGet s.tasks taskId = none) : executeTask s taskId = (s, false) := by
  unfold executeTask
  rw [h]

lemma executeTask_throws (s : Sys) (taskId : Nat) (tk : Task)
    (h : mapGet s.tasks taskId = some tk) (ht : tk.callback.throws = true) :
    executeTask s taskId =
      ({ s with log := s.log ++ [(taskId, tk.callback.cbId)] }, true) := by
  unfold executeTask
  rw [h]
  simp [ht]

lemma executeTask_normal (s : Sys) (taskId : Nat) (tk : Task)
    (h : mapGet s.tasks taskId = some tk) (ht : tk.callback.throws = false) :
    executeTask s taskId =
      ({ s with log := s.log ++ [(taskId, tk.callback.cbId)],
                tasks := mapDelete s.tasks taskId }, false) := by
  unfold executeTask
  rw [h]
  simp [ht]

lemma rescheduleTask_none (s : Sys) (taskId : Nat) (t2 : Int)
    (h : mapGet s.tasks taskId = none) :
    rescheduleTask s taskId t2 = (false, s) := by
  unfold rescheduleTask
  rw [h]

lemma rescheduleTask_some (s : Sys) (taskId : Nat) (t2 : Int) (tk : Task)
    (h : mapGet s.tasks taskId = some tk) (hid : tk.id = taskId) :
    rescheduleTask s taskId t2 =
      (true, { s with
               tasks := mapSet s.tasks taskId
                 { tk with targetTime := t2, timeoutId := some s.nextTimerId },
               timers := (clearTimeout s tk.timeoutId).timers ++
                 [⟨s.nextTimerId, dueAt s t2, taskId⟩],
               nextTimerId := s.nextTimerId + 1 }) := by
  simp only [rescheduleTask, h, scheduleTask_eq]
  simp [hid, mapSet_mapSet, dueAt]

/-! Structural invariant of reachable registry states.  It makes no
assumption about callbacks. -/

/-- Well-formedness of a registry state: keys are distinct and below the
id counter, records carry their own key, stored timeout handles and
pending handles are below the handle counter, pending handles are
distinct, every pending timer points at a present task whose stored
handle is that timer, and `createdIds` is exactly `[1, ..., nextTaskId - 1]`. -/
structure InvBase (s : Sys) : Prop where
  keysNodup : (keysOf s.tasks).Nodup
  keysLt : ∀ k ∈ keysOf s.tasks, k < s.nextTaskId
  idsMatch : ∀ p ∈ s.tasks, p.2.id = p.1
  taskTidsLt : ∀ p ∈ s.tasks, ∀ h, p.2.timeoutId = some h → h < s.nextTimerId
  onePos : 1 ≤ s.nextTaskId
  created : s.createdIds = (List.range (s.nextTaskId - 1)).map (· + 1)
  tidsNodup : (s.timers.map Timer.tid).Nodup
  tidsLt : ∀ tmr ∈ s.timers, tmr.tid < s.nextTimerId
  timersTask : ∀ tmr ∈ s.timers,
    ∃ tk, mapGet s.tasks tmr.taskId = some tk ∧ tk.timeoutId = some tmr.tid

lemma nodup_concat {α : Type} {l : List α} {a : α}
    (h : l.Nodup) (ha : a ∉ l) : (l ++ [a]).Nodup := by
  rw [List.nodup_append]
  refine ⟨h, List.nodup_singleton a, ?_⟩
  intro x hx hxa
  rcases List.mem_singleton.1 hxa with rfl
  exact ha hx

lemma invBase_fresh_key {s : Sys} (inv : InvBase s) :
    s.nextTaskId ∉ keysOf s.tasks :=
  fun hc => lt_irrefl _ (inv.keysLt _ hc)

lemma invBase_fresh_tid {s : Sys} (inv : InvBase s) :
    s.nextTimerId ∉ s.timers.map Timer.tid := by
  intro hc
  rcases List.mem_map.1 hc with ⟨tmr, hm, ht⟩
  exact lt_irrefl _ (ht ▸ inv.tidsLt tmr hm)

lemma created_step {n : Nat} (h1 : 1 ≤ n) :
    (List.range (n - 1)).map (· + 1) ++ [n] =
      (List.range ((n + 1) - 1)).map (· + 1) := by
  have h2 : (n + 1) - 1 = (n - 1) + 1 := by omega
  rw [h2, List.range_succ, List.map_append]
  simp
  omega

lemma clearTimeout_timers_sublist (s : Sys) (h : Option Nat) :
    (clearTimeout s h).timers.Sublist s.timers := by
  cases h with
  | none => exact List.Sublist.refl _
  | some t => exact List.filter_sublist _

lemma clearTimeout_not_mem (s : Sys) (t : Nat) (tmr : Timer)
    (hm : tmr ∈ (clearTimeout s (some t)).timers) : tmr.tid ≠ t := by
  have := List.mem_filter.1 hm
  simpa using this.2

lemma invBase_createTask {s : Sys} (inv : InvBase s) (t : Int) (cb : Callback) :
    InvBase (createTask s t cb).2 := by
  rw [createTask_eq]
  have hfresh := invBase_fresh_key inv
  have hkeys : keysOf (mapSet s.tasks s.nextTaskId
      ⟨s.nextTaskId, t, cb, some s.nextTimerId⟩) = keysOf s.tasks ++ [s.nextTaskId] :=
    keysOf_mapSet_not_mem _ _ _ hfresh
  refine ⟨?_, ?_, ?_, ?_, ?_, ?_, ?_, ?_, ?_⟩
  · rw [hkeys]
    exact nodup_concat inv.keysNodup hfresh
  · intro k hk
    rw [hkeys] at hk
    rcases List.mem_append.1 hk with hk | hk
    · exact lt_trans (inv.keysLt k hk) (Nat.lt_succ_self _)
    · rcases List.mem_singleton.1 hk with rfl
      exact Nat.lt_succ_self _
  · intro p hp
    rcases mem_mapSet _ _ _ p hp with h | h
    · rw [h]
    · exact inv.idsMatch p h
  · intro p hp h hh
    rcases mem_mapSet _ _ _ p hp with h2 | h2
    · rw [h2] at hh
      simp at hh
      rw [← hh]
      exact Nat.lt_succ_self _
    · exact lt_trans (inv.taskTidsLt p h2 h hh) (Nat.lt_succ_self _)
  · exact le_trans inv.onePos (Nat.le_succ _)
  · show s.createdIds ++ [s.nextTaskId] = _
    rw [inv.created]
    exact created_step inv.onePos
  · have hmap : (s.timers ++ [(⟨s.nextTimerId, dueAt s t, s.nextTaskId⟩ : Timer)]).map Timer.tid
        = s.timers.map Timer.tid ++ [s.nextTimerId] := by simp
    rw [hmap]
    exact nodup_concat inv.tidsNodup (invBase_fresh_tid inv)
  · intro tmr hm
    rcases List.mem_append.1 hm with hm | hm
    · exact lt_trans (inv.tidsLt tmr hm) (Nat.lt_succ_self _)
    · rcases List.mem_singleton.1 hm with rfl
      exact Nat.lt_succ_self _
  · intro tmr hm
    rcases List.mem_append.1 hm with hm | hm
    · obtain ⟨tk, hg, hts⟩ := inv.timersTask tmr hm
      have hne : tmr.taskId ≠ s.nextTaskId := by
        intro hc
        exact invBase_fresh_key inv (hc ▸ mapGet_mem_keysOf _ _ _ hg)
      refine ⟨tk, ?_, hts⟩
      rw [mapGet_mapSet_ne _ _ _ _ hne]
      exact hg
    · rcases List.mem_singleton.1 hm with rfl
      exact ⟨_, mapGet_mapSet_self _ _ _, rfl⟩

lemma invBase_cancelTask {s : Sys} (inv : InvBase s) (taskId : Nat) :
    InvBase (cancelTask s taskId).2 := by
  cases hg : mapGet s.tasks taskId with
  | none =>
      rw [cancelTask_none s taskId hg]
      exact inv
  | some tk =>
      rw [cancelTask_some s taskId tk hg]
      refine ⟨?_, ?_, ?_, ?_, ?_, ?_, ?_, ?_, ?_⟩
      · rw [keysOf_mapDelete]
        exact inv.keysNodup.filter _
      · intro k hk
        rw [keysOf_mapDelete] at hk
        exact inv.keysLt k (List.mem_filter.1 hk).1
      · intro p hp
        exact inv.idsMatch p (mem_mapDelete _ _ _ hp).1
      · intro p hp h hh
        simpa using inv.taskTidsLt p (mem_mapDelete _ _ _ hp).1 h hh
      · exact inv.onePos
      · simpa using inv.created
      · exact inv.tidsNodup.sublist ((clearTimeout_timers_sublist s tk.timeoutId).map _)
      · intro tmr hm
        simpa using inv.tidsLt tmr ((clearTimeout_timers_sublist s tk.timeoutId).subset hm)
      · intro tmr hm
        have hmem : tmr ∈ s.timers := (clearTimeout_timers_sublist s tk.timeoutId).subset hm
        obtain ⟨tk2, hg2, hts2⟩ := inv.timersTask tmr hmem
        have hne : tmr.taskId ≠ taskId := by
          intro hc
          rw [hc] at hg2
          have heq : tk2 = tk := Option.some.inj (hg2.symm.trans hg)
          subst heq
          rw [hts2] at hm
          exact clearTimeout_not_mem s tmr.tid tmr hm rfl
        refine ⟨tk2, ?_, hts2⟩
        show mapGet (mapDelete s.tasks taskId) tmr.taskId = some tk2
        rw [mapGet_mapDelete_ne _ _ _ hne]
        exact hg2

lemma invBase_rescheduleTask {s : Sys} (inv : InvBase s) (taskId : Nat) (t2 : Int) :
    InvBase (rescheduleTask s taskId t2).2 := by
  cases hg : mapGet s.tasks taskId with
  | none =>
      rw [rescheduleTask_none s taskId t2 hg]
      exact inv
  | some tk =>
      have hid : tk.id = taskId := inv.idsMatch (taskId, tk) (mapGet_mem _ _ _ hg)
      rw [rescheduleTask_some s taskId t2 tk hg hid]
      have hmemk : taskId ∈ keysOf s.tasks := mapGet_mem_keysOf _ _ _ hg
      have hkeys := keysOf_mapSet_mem s.tasks taskId
        { tk with targetTime := t2, timeoutId := some s.nextTimerId } hmemk
      refine ⟨?_, ?_, ?_, ?_, ?_, ?_, ?_, ?_, ?_⟩
      · rw [hkeys]
        exact inv.keysNodup
      · intro k hk
        rw [hkeys] at hk
        exact inv.keysLt k hk
      · intro p hp
        rcases mem_mapSet _ _ _ p hp with h | h
        · rw [h]
          exact hid
        · exact inv.idsMatch p h
      · intro p hp h hh
        rcases mem_mapSet _ _ _ p hp with h2 | h2
        · rw [h2] at hh
          simp at hh
          rw [← hh]
          exact Nat.lt_succ_self _
        · exact lt_trans (inv.taskTidsLt p h2 h hh) (Nat.lt_succ_self _)
      · exact inv.onePos
      · simpa using inv.created
      · have hmap : ((clearTimeout s tk.timeoutId).timers ++
            [(⟨s.nextTimerId, dueAt s t2, taskId⟩ : Timer)]).map Timer.tid
            = (clearTimeout s tk.timeoutId).timers.map Timer.tid ++ [s.nextTimerId] := by
          simp
        rw [hmap]
        refine nodup_concat
          (inv.tidsNodup.sublist ((clearTimeout_timers_sublist s tk.timeoutId).map _)) ?_
        intro hc
        exact invBase_fresh_tid inv
          (((clearTimeout_timers_sublist s tk.timeoutId).map Timer.tid).subset hc)
      · intro tmr hm
        rcases List.mem_append.1 hm with hm | hm
        · exact lt_trans
            (inv.tidsLt tmr ((clearTimeout_timers_sublist s tk.timeoutId).subset hm))
            (Nat.lt_succ_self _)
        · rcases List.mem_singleton.1 hm with rfl
          exact Nat.lt_succ_self _
      · intro tmr hm
        rcases List.mem_append.1 hm with hm | hm
        · have hmem : tmr ∈ s.timers := (clearTimeout_timers_sublist s tk.timeoutId).subset hm
          obtain ⟨tk2, hg2, hts2⟩ := inv.timersTask tmr hmem
          have hne : tmr.taskId ≠ taskId := by
            intro hc
            rw [hc] at hg2
            have heq : tk2 = tk := Option.some.inj (hg2.symm.trans hg)
            subst heq
            rw [hts2] at hm
            exact clearTimeout_not_mem s tmr.tid tmr hm rfl
          refine ⟨tk2, ?_, hts2⟩
          show mapGet (mapSet s.tasks taskId _) tmr.taskId = some tk2
          rw [mapGet_mapSet_ne _ _ _ _ hne]
          exact hg2
        · rcases List.mem_singleton.1 hm with rfl
          exact ⟨_, mapGet_mapSet_self _ _ _, rfl⟩

lemma invBase_set_log {s : Sys} (inv : InvBase s) (l : List (Nat × Nat)) :
    InvBase { s with log := l } :=
  ⟨inv.keysNodup, inv.keysLt, inv.idsMatch, inv.taskTidsLt, inv.onePos,
   inv.created, inv.tidsNodup, inv.tidsLt, inv.timersTask⟩

lemma invBase_set_now {s : Sys} (inv : InvBase s) (t : Int) :
    InvBase { s with now := t } :=
  ⟨inv.keysNodup, inv.keysLt, inv.idsMatch, inv.taskTidsLt, inv.onePos,
   inv.created, inv.tidsNodup, inv.tidsLt, inv.timersTask⟩

lemma invBase_drop_timer {s : Sys} (inv : InvBase s) (tid : Nat) :
    InvBase { s with timers := s.timers.filter (fun x => x.tid != tid) } := by
  refine ⟨inv.keysNodup, inv.keysLt, inv.idsMatch, inv.taskTidsLt, inv.onePos,
          inv.created, ?_, ?_, ?_⟩
  · exact inv.tidsNodup.sublist ((List.filter_sublist _).map _)
  · intro tmr hm
    exact inv.tidsLt tmr ((List.filter_sublist _).subset hm)
  · intro tmr hm
    exact inv.timersTask tmr ((List.filter_sublist _).subset hm)

lemma fireTimer_none (s : Sys) (tid : Nat)
    (hf : s.timers.find? (fun x => x.tid == tid) = none) :
    fireTimer s tid = s := by
  unfold fireTimer
  rw [hf]

lemma fireTimer_some (s : Sys) (tid : Nat) (tmr : Timer)
    (hf : s.timers.find? (fun x => x.tid == tid) = some tmr) :
    fireTimer s tid =
      if s.now ≥ tmr.fireAt then
        (executeTask { s with timers := s.timers.filter (fun x => x.tid != tid) }
          tmr.taskId).1
      else s := by
  unfold fireTimer
  rw [hf]

lemma invBase_fireTimer {s : Sys} (inv : InvBase s) (tid : Nat) :
    InvBase (fireTimer s tid) := by
  cases hf : s.timers.find? (fun x => x.tid == tid) with
  | none =>
      rw [fireTimer_none s tid hf]
      exact inv
  | some tmr =>
      rw [fireTimer_some s tid tmr hf]
      by_cases hnow : s.now ≥ tmr.fireAt
      · rw [if_pos hnow]
        have hmem : tmr ∈ s.timers := List.mem_of_find?_eq_some hf
        have htid : tmr.tid = tid := by simpa using List.find?_some hf
        obtain ⟨tk, hg, hts⟩ := inv.timersTask tmr hmem
        set s1 : Sys := { s with timers := s.timers.filter (fun x => x.tid != tid) } with hs1
        have inv1 : InvBase s1 := invBase_drop_timer inv tid
        have hg1 : mapGet s1.tasks tmr.taskId = some tk := hg
        cases hth : tk.callback.throws with
        | true =>
            rw [executeTask_throws s1 tmr.taskId tk hg1 hth]
            exact invBase_set_log inv1 _
        | false =>
            rw [executeTask_normal s1 tmr.taskId tk hg1 hth]
            refine ⟨?_, ?_, ?_, ?_, inv1.onePos, ?_, inv1.tidsNodup, inv1.tidsLt, ?_⟩
            · rw [keysOf_mapDelete]
              exact inv1.keysNodup.filter _
            · intro k hk
              rw [keysOf_mapDelete] at hk
              exact inv1.keysLt k (List.mem_filter.1 hk).1
            · intro p hp
              exact inv1.idsMatch p (mem_mapDelete _ _ _ hp).1
            · intro p hp h hh
              exact inv1.taskTidsLt p (mem_mapDelete _ _ _ hp).1 h hh
            · exact inv1.created
            · intro tmr2 hm2
              have hm2s : tmr2 ∈ s.timers := (List.filter_sublist _).subset hm2
              obtain ⟨tk2, hg2, hts2⟩ := inv.timersTask tmr2 hm2s
              have hne : tmr2.taskId ≠ tmr.taskId := by
                intro hc
                rw [hc] at hg2
                have heq : tk2 = tk := Option.some.inj (hg2.symm.trans hg)
                subst heq
                have : tmr2.tid = tmr.tid := Option.some.inj (hts2.symm.trans hts)
                have hkept := List.mem_filter.1 hm2
                have : tmr2.tid ≠ tid := by simpa using hkept.2
                exact this (by rw [← htid] at *; assumption)
              refine ⟨tk2, ?_, hts2⟩
              show mapGet (mapDelete s1.tasks tmr.taskId) tmr2.taskId = some tk2
              rw [mapGet_mapDelete_ne _ _ _ hne]
              exact hg2
      · rw [if_neg hnow]
        exact inv

lemma invBase_step {s : Sys} (inv : InvBase s) (e : Event) : InvBase (step s e) := by
  cases e with
  | create t cb => exact invBase_createTask inv t cb
  | cancel taskId => exact invBase_cancelTask inv taskId
  | resched taskId t => exact invBase_rescheduleTask inv taskId t
  | snapshot => exact inv
  | fire tid => exact invBase_fireTimer inv tid
  | tick d => exact invBase_set_now inv _

lemma invBase_init : InvBase init := by
  refine ⟨?_, ?_, ?_, ?_, ?_, ?_, ?_, ?_, ?_⟩ <;> simp [init, keysOf]

lemma run_cons (s : Sys) (e : Event) (evs : List Event) :
    run s (e :: evs) = run (step s e) evs := rfl

lemma invBase_run_from {s : Sys} (inv : InvBase s) (evs : List Event) :
    InvBase (run s evs) := by
  induction evs generalizing s with
  | nil => exact inv
  | cons e rest ih => exact ih (invBase_step inv e)

lemma invBase_run (evs : List Event) : InvBase (run init evs) :=
  invBase_run_from invBase_init evs

/-! Full invariant of reachable states whose callbacks never raise. -/

lemma mapGet_of_mem (m : List (Nat × Task)) (p : Nat × Task)
    (hm : p ∈ m) (hnd : (keysOf m).Nodup) : mapGet m p.1 = some p.2 := by
  induction m with
  | nil => simp at hm
  | cons q rest ih =>
      rw [keysOf_cons] at hnd
      rcases List.mem_cons.1 hm with h | h
      · rw [h, mapGet_cons, if_pos rfl]
      · have hne : q.1 ≠ p.1 := by
          intro hc
          exact (List.nodup_cons.1 hnd).1
            (hc ▸ List.mem_map.2 ⟨p, h, rfl⟩)
        rw [mapGet_cons, if_neg hne]
        exact ih h (List.nodup_cons.1 hnd).2

lemma mem_mapSet_ne (m : List (Nat × Task)) (k : Nat) (v : Task) (p : Nat × Task)
    (hnd : (keysOf m).Nodup) (h : p ∈ mapSet m k v) :
    p = (k, v) ∨ (p ∈ m ∧ p.1 ≠ k) := by
  induction m with
  | nil => exact Or.inl (by simpa [mapSet] using h)
  | cons q rest ih =>
      rw [keysOf_cons] at hnd
      by_cases hq : q.1 = k
      · rw [mapSet_cons_eq q rest k v hq] at h
        rcases List.mem_cons.1 h with h | h
        · exact Or.inl h
        · refine Or.inr ⟨List.mem_cons.2 (Or.inr h), ?_⟩
          intro hc
          refine (List.nodup_cons.1 hnd).1 ?_
          rw [hq, ← hc]
          exact List.mem_map.2 ⟨p, h, rfl⟩
      · rw [mapSet_cons_ne q rest k v hq] at h
        rcases List.mem_cons.1 h with h | h
        · exact Or.inr ⟨List.mem_cons.2 (Or.inl h), h ▸ hq⟩
        · rcases ih (List.nodup_cons.1 hnd).2 h with h2 | h2
          · exact Or.inl h2
          · exact Or.inr ⟨List.mem_cons.2 (Or.inr h2.1), h2.2⟩

/-- Invariant of reachable states when no registered callback raises:
additionally, every present task has exactly its stored handle pending,
no present callback raises, fired ids are gone from the map and below
the counter, and each id fired at most once. -/
structure InvFull (s : Sys) : Prop where
  base : InvBase s
  tasksWF : ∀ p ∈ s.tasks, ∃ tmr ∈ s.timers, p.2.timeoutId = some tmr.tid ∧ tmr.taskId = p.1
  noThrow : ∀ p ∈ s.tasks, p.2.callback.throws = false
  logFresh : ∀ i ∈ logIds s, i ∉ keysOf s.tasks ∧ i < s.nextTaskId
  logNodup : (logIds s).Nodup

lemma nodup_map_inj {α β : Type} {l : List α} {f : α → β}
    (hnd : (l.map f).Nodup) {a b : α} (ha : a ∈ l) (hb : b ∈ l)
    (hf : f a = f b) : a = b := by
  induction l with
  | nil => simp at ha
  | cons x rest ih =>
      rw [List.map_cons, List.nodup_cons] at hnd
      rcases List.mem_cons.1 ha with h1 | h1 <;> rcases List.mem_cons.1 hb with h2 | h2
      · rw [h1, h2]
      · exact absurd (List.mem_map.2 ⟨b, h2, (h1 ▸ hf).symm⟩) hnd.1
      · exact absurd (List.mem_map.2 ⟨a, h1, (h2 ▸ hf)⟩) hnd.1
      · exact ih hnd.2 h1 h2

/-- Stored timeout handles are injective across present tasks. -/
lemma invFull_tid_inj {s : Sys} (inv : InvFull s) {p q : Nat × Task}
    (hp : p ∈ s.tasks) (hq : q ∈ s.tasks) {h : Nat}
    (hph : p.2.timeoutId = some h) (hqh : q.2.timeoutId = some h) :
    p.1 = q.1 := by
  obtain ⟨tp, htp, hpt, hpi⟩ := inv.tasksWF p hp
  obtain ⟨tq, htq, hqt, hqi⟩ := inv.tasksWF q hq
  have h1 : tp.tid = h := Option.some.inj (hpt.symm.trans hph)
  have h2 : tq.tid = h := Option.some.inj (hqt.symm.trans hqh)
  have : tp = tq := nodup_map_inj inv.base.tidsNodup htp htq (h1.trans h2.symm)
  rw [← hpi, ← hqi, this]

lemma invFull_createTask {s : Sys} (inv : InvFull s) (t : Int) (cb : Callback)
    (hcb : cb.throws = false) : InvFull (createTask s t cb).2 := by
  have hbase := invBase_createTask inv.base t cb
  rw [createTask_eq] at hbase ⊢
  have hfresh := invBase_fresh_key inv.base
  have hkeys := keysOf_mapSet_not_mem s.tasks s.nextTaskId
    ⟨s.nextTaskId, t, cb, some s.nextTimerId⟩ hfresh
  refine ⟨hbase, ?_, ?_, ?_, inv.logNodup⟩
  · intro p hp
    rcases mem_mapSet _ _ _ p hp with h | h
    · refine ⟨⟨s.nextTimerId, dueAt s t, s.nextTaskId⟩,
        List.mem_append.2 (Or.inr (List.mem_singleton.2 rfl)), ?_, ?_⟩ <;> rw [h]
    · obtain ⟨tmr, htm, h1, h2⟩ := inv.tasksWF p h
      exact ⟨tmr, List.mem_append.2 (Or.inl htm), h1, h2⟩
  · intro p hp
    rcases mem_mapSet _ _ _ p hp with h | h
    · rw [h]
      exact hcb
    · exact inv.noThrow p h
  · intro i hi
    obtain ⟨h1, h2⟩ := inv.logFresh i hi
    refine ⟨?_, lt_trans h2 (Nat.lt_succ_self _)⟩
    rw [hkeys]
    intro hc
    rcases List.mem_append.1 hc with hc | hc
    · exact h1 hc
    · rcases List.mem_singleton.1 hc with rfl
      exact lt_irrefl _ h2

lemma invFull_cancelTask {s : Sys} (inv : InvFull s) (taskId : Nat) :
    InvFull (cancelTask s taskId).2 := by
  cases hg : mapGet s.tasks taskId with
  | none =>
      rw [cancelTask_none s taskId hg]
      exact inv
  | some tk =>
      have hbase := invBase_cancelTask inv.base taskId
      rw [cancelTask_some s taskId tk hg] at hbase ⊢
      refine ⟨hbase, ?_, ?_, ?_, inv.logNodup⟩
      · intro p hp
        obtain ⟨hpm, hpne⟩ := mem_mapDelete _ _ _ hp
        obtain ⟨tmr, htm, h1, h2⟩ := inv.tasksWF p hpm
        refine ⟨tmr, ?_, h1, h2⟩
        cases hto : tk.timeoutId with
        | none => exact htm
        | some h0 =>
            show tmr ∈ s.timers.filter (fun x => x.tid != h0)
            refine List.mem_filter.2 ⟨htm, ?_⟩
            have hne : tmr.tid ≠ h0 := by
              intro hc
              have hph : p.2.timeoutId = some h0 := by
                rw [← hc]
                exact h1
              exact hpne (invFull_tid_inj inv hpm (mapGet_mem _ _ _ hg) hph hto)
            simpa using hne
      · intro p hp
        exact inv.noThrow p (mem_mapDelete _ _ _ hp).1
      · intro i hi
        obtain ⟨h1, h2⟩ := inv.logFresh i hi
        refine ⟨?_, h2⟩
        rw [keysOf_mapDelete]
        intro hc
        exact h1 (List.mem_filter.1 hc).1

lemma invFull_rescheduleTask {s : Sys} (inv : InvFull s) (taskId : Nat) (t2 : Int) :
    InvFull (rescheduleTask s taskId t2).2 := by
  cases hg : mapGet s.tasks taskId with
  | none =>
      rw [rescheduleTask_none s taskId t2 hg]
      exact inv
  | some tk =>
      have hid : tk.id = taskId := inv.base.idsMatch (taskId, tk) (mapGet_mem _ _ _ hg)
      have hbase := invBase_rescheduleTask inv.base taskId t2
      rw [rescheduleTask_some s taskId t2 tk hg hid] at hbase ⊢
      have hkeys := keysOf_mapSet_mem s.tasks taskId
        { tk with targetTime := t2, timeoutId := some s.nextTimerId }
        (mapGet_mem_keysOf _ _ _ hg)
      refine ⟨hbase, ?_, ?_, ?_, inv.logNodup⟩
      · intro p hp
        rcases mem_mapSet_ne s.tasks taskId _ p inv.base.keysNodup hp with h | ⟨hpm, hpne⟩
        · refine ⟨⟨s.nextTimerId, dueAt s t2, taskId⟩,
            List.mem_append.2 (Or.inr (List.mem_singleton.2 rfl)), ?_, ?_⟩ <;> rw [h]
        · obtain ⟨tmr, htm, h1, h2⟩ := inv.tasksWF p hpm
          refine ⟨tmr, List.mem_append.2 (Or.inl ?_), h1, h2⟩
          cases hto : tk.timeoutId with
          | none => exact htm
          | some h0 =>
              show tmr ∈ s.timers.filter (fun x => x.tid != h0)
              refine List.mem_filter.2 ⟨htm, ?_⟩
              have hne : tmr.tid ≠ h0 := by
                intro hc
                have hph : p.2.timeoutId = some h0 := by
                  rw [← hc]
                  exact h1
                exact hpne (invFull_tid_inj inv hpm (mapGet_mem _ _ _ hg) hph hto)
              simpa using hne
      · intro p hp
        rcases mem_mapSet _ _ _ p hp with h | h
        · rw [h]
          exact inv.noThrow (taskId, tk) (mapGet_mem _ _ _ hg)
        · exact inv.noThrow p h
      · intro i hi
        obtain ⟨h1, h2⟩ := inv.logFresh i hi
        refine ⟨?_, h2⟩
        rw [hkeys]
        exact h1

lemma invFull_fireTimer {s : Sys} (inv : InvFull s) (tid : Nat) :
    InvFull (fireTimer s tid) := by
  cases hf : s.timers.find? (fun x => x.tid == tid) with
  | none =>
      rw [fireTimer_none s tid hf]
      exact inv
  | some tmr =>
      have hbase := invBase_fireTimer inv.base tid
      rw [fireTimer_some s tid tmr hf] at hbase ⊢
      by_cases hnow : s.now ≥ tmr.fireAt
      case neg =>
        rw [if_neg hnow]
        exact inv
      rw [if_pos hnow] at hbase ⊢
      have hmem : tmr ∈ s.timers := List.mem_of_find?_eq_some hf
      have htid : tmr.tid = tid := by simpa using List.find?_some hf
      obtain ⟨tk, hg, hts⟩ := inv.base.timersTask tmr hmem
      have hth : tk.callback.throws = false :=
        inv.noThrow (tmr.taskId, tk) (mapGet_mem _ _ _ hg)
      have hg1 : mapGet ({ s with
          timers := s.timers.filter (fun x => x.tid != tid) } : Sys).tasks
          tmr.taskId = some tk := hg
      rw [executeTask_normal _ tmr.taskId tk hg1 hth] at hbase ⊢
      have hnotin : tmr.taskId ∉ logIds s := by
        intro hc
        exact (inv.logFresh _ hc).1 (mapGet_mem_keysOf _ _ _ hg)
      refine ⟨hbase, ?_, ?_, ?_, ?_⟩
      · intro p hp
        obtain ⟨hpm, hpne⟩ := mem_mapDelete _ _ _ hp
        obtain ⟨tmr2, htm2, h1, h2⟩ := inv.tasksWF p hpm
        refine ⟨tmr2, ?_, h1, h2⟩
        refine List.mem_filter.2 ⟨htm2, ?_⟩
        have hne : tmr2.tid ≠ tid := by
          intro hc
          have heq : tmr2 = tmr :=
            nodup_map_inj inv.base.tidsNodup htm2 hmem (by rw [hc, htid])
          exact hpne (by rw [← h2, heq])
        simpa using hne
      · intro p hp
        exact inv.noThrow p (mem_mapDelete _ _ _ hp).1
      · intro i hi
        have hi2 : i ∈ logIds s ++ [tmr.taskId] := by
          simpa [logIds] using hi
        rcases List.mem_append.1 hi2 with h | h
        · obtain ⟨h1, h2⟩ := inv.logFresh i h
          refine ⟨?_, h2⟩
          rw [keysOf_mapDelete]
          intro hc
          exact h1 (List.mem_filter.1 hc).1
        · rcases List.mem_singleton.1 h with rfl
          constructor
          · rw [keysOf_mapDelete]
            intro hc
            have h3 := (List.mem_filter.1 hc).2
            simp at h3
          · exact inv.base.keysLt _ (mapGet_mem_keysOf _ _ _ hg)
      · show ((s.log ++ [(tmr.taskId, tk.callback.cbId)]).map Prod.fst).Nodup
        rw [List.map_append]
        exact nodup_concat inv.logNodup hnotin

lemma invFull_step {s : Sys} (inv : InvFull s) {e : Event} (he : eventOk e) :
    InvFull (step s e) := by
  cases e with
  | create t cb => exact invFull_createTask inv t cb he
  | cancel taskId => exact invFull_cancelTask inv taskId
  | resched taskId t => exact invFull_rescheduleTask inv taskId t
  | snapshot => exact inv
  | fire tid => exact invFull_fireTimer inv tid
  | tick d =>
      exact ⟨invBase_set_now inv.base _, inv.tasksWF, inv.noThrow,
             inv.logFresh, inv.logNodup⟩

lemma invFull_init : InvFull init := by
  refine ⟨invBase_init, ?_, ?_, ?_, ?_⟩ <;> simp [init, logIds]

lemma invFull_run_from {s : Sys} (inv : InvFull s) (evs : List Event)
    (hok : ∀ e ∈ evs, eventOk e) : InvFull (run s evs) := by
  induction evs generalizing s with
  | nil => exact inv
  | cons e rest ih =>
      exact ih (invFull_step inv (hok e (List.mem_cons_self _ _)))
        (fun e2 he2 => hok e2 (List.mem_cons.2 (Or.inr he2)))

lemma invFull_run (evs : List Event) (hok : ∀ e ∈ evs, eventOk e) :
    InvFull (run init evs) :=
  invFull_run_from invFull_init evs hok

/-! Frame facts about counters and histories, and stability of a dead id. -/

lemma cancelTask_fields (s : Sys) (taskId : Nat) :
    ((cancelTask s taskId).2).nextTaskId = s.nextTaskId ∧
    ((cancelTask s taskId).2).log = s.log ∧
    ((cancelTask s taskId).2).createdIds = s.createdIds := by
  cases hg : mapGet s.tasks taskId with
  | none =>
      rw [cancelTask_none s taskId hg]
      exact ⟨rfl, rfl, rfl⟩
  | some tk =>
      rw [cancelTask_some s taskId tk hg]
      exact ⟨rfl, rfl, rfl⟩

lemma rescheduleTask_fields (s : Sys) (taskId : Nat) (t2 : Int) :
    ((rescheduleTask s taskId t2).2).nextTaskId = s.nextTaskId ∧
    ((rescheduleTask s taskId t2).2).log = s.log ∧
    ((rescheduleTask s taskId t2).2).createdIds = s.createdIds := by
  unfold rescheduleTask
  cases mapGet s.tasks taskId with
  | none => exact ⟨rfl, rfl, rfl⟩
  | some tk =>
      simp only [scheduleTask_eq]
      simp

lemma executeTask_fields (s : Sys) (taskId : Nat) :
    ((executeTask s taskId).1).nextTaskId = s.nextTaskId ∧
    ((executeTask s taskId).1).createdIds = s.createdIds := by
  unfold executeTask
  cases mapGet s.tasks taskId with
  | none => exact ⟨rfl, rfl⟩
  | some tk => by_cases h : tk.callback.throws <;> simp [h]

lemma fireTimer_fields (s : Sys) (tid : Nat) :
    (fireTimer s tid).nextTaskId = s.nextTaskId ∧
    (fireTimer s tid).createdIds = s.createdIds := by
  cases hf : s.timers.find? (fun x => x.tid == tid) with
  | none =>
      rw [fireTimer_none s tid hf]
      exact ⟨rfl, rfl⟩
  | some tmr =>
      rw [fireTimer_some s tid tmr hf]
      by_cases hnow : s.now ≥ tmr.fireAt
      · rw [if_pos hnow]
        exact executeTask_fields _ _
      · rw [if_neg hnow]
        exact ⟨rfl, rfl⟩

lemma dead_id_stable {s : Sys} (inv : InvBase s) {deadId : Nat}
    (hlt : deadId < s.nextTaskId) (hnk : deadId ∉ keysOf s.tasks) (e : Event) :
    deadId < (step s e).nextTaskId ∧ deadId ∉ keysOf (step s e).tasks ∧
      (logIds (step s e)).count deadId = (logIds s).count deadId := by
  cases e with
  | create t cb =>
      show deadId < ((createTask s t cb).2).nextTaskId ∧
        deadId ∉ keysOf ((createTask s t cb).2).tasks ∧
        (logIds ((createTask s t cb).2)).count deadId = (logIds s).count deadId
      rw [createTask_eq]
      refine ⟨lt_trans hlt (Nat.lt_succ_self _), ?_, rfl⟩
      rw [keysOf_mapSet_not_mem _ _ _ (invBase_fresh_key inv)]
      intro hc
      rcases List.mem_append.1 hc with hc | hc
      · exact hnk hc
      · rcases List.mem_singleton.1 hc with rfl
        exact lt_irrefl _ hlt
  | cancel taskId =>
      show deadId < ((cancelTask s taskId).2).nextTaskId ∧
        deadId ∉ keysOf ((cancelTask s taskId).2).tasks ∧
        (logIds ((cancelTask s taskId).2)).count deadId = (logIds s).count deadId
      cases hg : mapGet s.tasks taskId with
      | none =>
          rw [cancelTask_none s taskId hg]
          exact ⟨hlt, hnk, rfl⟩
      | some tk =>
          rw [cancelTask_some s taskId tk hg]
          refine ⟨hlt, ?_, rfl⟩
          rw [keysOf_mapDelete]
          intro hc
          exact hnk (List.mem_filter.1 hc).1
  | resched taskId t2 =>
      show deadId < ((rescheduleTask s taskId t2).2).nextTaskId ∧
        deadId ∉ keysOf ((rescheduleTask s taskId t2).2).tasks ∧
        (logIds ((rescheduleTask s taskId t2).2)).count deadId = (logIds s).count deadId
      cases hg : mapGet s.tasks taskId with
      | none =>
          rw [rescheduleTask_none s taskId t2 hg]
          exact ⟨hlt, hnk, rfl⟩
      | some tk =>
          have hid : tk.id = taskId := inv.idsMatch (taskId, tk) (mapGet_mem _ _ _ hg)
          rw [rescheduleTask_some s taskId t2 tk hg hid]
          refine ⟨hlt, ?_, rfl⟩
          rw [keysOf_mapSet_mem _ _ _ (mapGet_mem_keysOf _ _ _ hg)]
          exact hnk
  | snapshot => exact ⟨hlt, hnk, rfl⟩
  | tick d => exact ⟨hlt, hnk, rfl⟩
  | fire tid =>
      show deadId < (fireTimer s tid).nextTaskId ∧
        deadId ∉ keysOf (fireTimer s tid).tasks ∧
        (logIds (fireTimer s tid)).count deadId = (logIds s).count deadId
      cases hf : s.timers.find? (fun x => x.tid == tid) with
      | none =>
          rw [fireTimer_none s tid hf]
          exact ⟨hlt, hnk, rfl⟩
      | some tmr =>
          rw [fireTimer_some s tid tmr hf]
          by_cases hnow : s.now ≥ tmr.fireAt
          case neg =>
            rw [if_neg hnow]
            exact ⟨hlt, hnk, rfl⟩
          rw [if_pos hnow]
          cases hge : mapGet s.tasks tmr.taskId with
          | none =>
              rw [executeTask_none
                ({ s with timers := s.timers.filter (fun x => x.tid != tid) } : Sys)
                tmr.taskId hge]
              exact ⟨hlt, hnk, rfl⟩
          | some tk =>
              have hne : tmr.taskId ≠ deadId :=
                fun hc => hnk (hc ▸ mapGet_mem_keysOf _ _ _ hge)
              have hcount : ((s.log ++ [(tmr.taskId, tk.callback.cbId)]).map
                  Prod.fst).count deadId = (s.log.map Prod.fst).count deadId := by
                rw [List.map_append, List.count_append]
                simp [List.count_cons, Ne.symm hne]
              cases hth : tk.callback.throws with
              | true =>
                  rw [executeTask_throws
                    ({ s with timers := s.timers.filter (fun x => x.tid != tid) } : Sys)
                    tmr.taskId tk hge hth]
                  exact ⟨hlt, hnk, hcount⟩
              | false =>
                  rw [executeTask_normal
                    ({ s with timers := s.timers.filter (fun x => x.tid != tid) } : Sys)
                    tmr.taskId tk hge hth]
                  refine ⟨hlt, ?_, hcount⟩
                  rw [keysOf_mapDelete]
                  intro hc
                  exact hnk (List.mem_filter.1 hc).1

lemma dead_id_stable_run {s : Sys} (inv : InvBase s) {deadId : Nat}
    (hlt : deadId < s.nextTaskId) (hnk : deadId ∉ keysOf s.tasks)
    (evs : List Event) :
    deadId < (run s evs).nextTaskId ∧ deadId ∉ keysOf (run s evs).tasks ∧
      (logIds (run s evs)).count deadId = (logIds s).count deadId := by
  induction evs generalizing s with
  | nil => exact ⟨hlt, hnk, rfl⟩
  | cons e rest ih =>
      obtain ⟨h1, h2, h3⟩ := dead_id_stable inv hlt hnk e
      obtain ⟨g1, g2, g3⟩ := ih (invBase_step inv e) h1 h2
      exact ⟨g1, g2, g3.trans h3⟩

/-! Characterisations of the `src/task.js` variant, used by C4, C6 and C7. -/

lemma scheduleTaskJS_future (s : Sys) (task : Task)
    (h : task.targetTime - s.now > 0) :
    scheduleTaskJS s task = (scheduleTask s task, false) := by
  unfold scheduleTaskJS scheduleTask
  simp [h]

lemma scheduleTaskJS_noThrow (s : Sys) (task : Task)
    (h : ∀ tk, mapGet s.tasks task.id = some tk → tk.callback.throws = false) :
    (scheduleTaskJS s task).2 = false := by
  unfold scheduleTaskJS
  by_cases hpos : task.targetTime - s.now > 0
  · simp [hpos]
  · rw [if_neg hpos]
    cases hg : mapGet s.tasks task.id with
    | none => rw [executeTask_none s task.id hg]
    | some tk => rw [executeTask_normal s task.id tk hg (h tk hg)]

lemma scheduleTaskJS_throw (s : Sys) (task : Task) (tk : Task)
    (hg : mapGet s.tasks task.id = some tk) (hth : tk.callback.throws = true)
    (hpast : ¬task.targetTime - s.now > 0) :
    (scheduleTaskJS s task).2 = true := by
  unfold scheduleTaskJS
  rw [if_neg hpast, executeTask_throws s task.id tk hg hth]

lemma scheduleTaskJS_nextTaskId (s : Sys) (task : Task) :
    ((scheduleTaskJS s task).1).nextTaskId = s.nextTaskId := by
  unfold scheduleTaskJS
  by_cases hpos : task.targetTime - s.now > 0
  · simp [hpos, setTimeout]
  · rw [if_neg hpos]
    exact (executeTask_fields s task.id).1

lemma createTaskJS_state (s : Sys) (t : Int) (cb : Callback) :
    (createTaskJS s t cb).2 =
      (scheduleTaskJS
        { s with nextTaskId := s.nextTaskId + 1,
                 tasks := mapSet s.tasks s.nextTaskId ⟨s.nextTaskId, t, cb, none⟩,
                 createdIds := s.createdIds ++ [s.nextTaskId] }
        ⟨s.nextTaskId, t, cb, none⟩).1 := by
  simp only [createTaskJS]
  split <;> rfl

lemma createTaskJS_nextTaskId (s : Sys) (t : Int) (cb : Callback) :
    ((createTaskJS s t cb).2).nextTaskId = s.nextTaskId + 1 := by
  rw [createTaskJS_state]
  exact scheduleTaskJS_nextTaskId _ _

lemma createTaskJS_ok (s : Sys) (t : Int) (cb : Callback)
    (hcb : cb.throws = false) :
    (createTaskJS s t cb).1 = some s.nextTaskId := by
  unfold createTaskJS
  have h2 : (scheduleTaskJS
      { s with nextTaskId := s.nextTaskId + 1,
               tasks := mapSet s.tasks s.nextTaskId ⟨s.nextTaskId, t, cb, none⟩,
               createdIds := s.createdIds ++ [s.nextTaskId] }
      ⟨s.nextTaskId, t, cb, none⟩).2 = false := by
    apply scheduleTaskJS_noThrow
    intro tk hg
    have hg2 : some (⟨s.nextTaskId, t, cb, none⟩ : Task) = some tk :=
      (mapGet_mapSet_self s.tasks s.nextTaskId _).symm.trans hg
    rw [← Option.some.inj hg2]
    exact hcb
  simp [h2]

lemma createTaskJS_some_future (s : Sys) (t : Int) (cb : Callback)
    (hpos : t - s.now > 0) :
    (createTaskJS s t cb).1 = some s.nextTaskId := by
  unfold createTaskJS
  have h2 : (scheduleTaskJS
      { s with nextTaskId := s.nextTaskId + 1,
               tasks := mapSet s.tasks s.nextTaskId ⟨s.nextTaskId, t, cb, none⟩,
               createdIds := s.createdIds ++ [s.nextTaskId] }
      ⟨s.nextTaskId, t, cb, none⟩).2 = false := by
    rw [scheduleTaskJS_future _ _ (by simpa using hpos)]
  simp [h2]

lemma createTaskJS_none (s : Sys) (t : Int) (cb : Callback)
    (hth : cb.throws = true) (hpast : ¬t - s.now > 0) :
    (createTaskJS s t cb).1 = none := by
  unfold createTaskJS
  have h2 : (scheduleTaskJS
      { s with nextTaskId := s.nextTaskId + 1,
               tasks := mapSet s.tasks s.nextTaskId ⟨s.nextTaskId, t, cb, none⟩,
               createdIds := s.createdIds ++ [s.nextTaskId] }
      ⟨s.nextTaskId, t, cb, none⟩).2 = true := by
    apply scheduleTaskJS_throw _ _ ⟨s.nextTaskId, t, cb, none⟩
      (mapGet_mapSet_self _ _ _) hth
    simpa using hpast
  simp [h2]

lemma rescheduleTaskJS_future (s : Sys) (taskId : Nat) (t2 : Int) (tk : Task)
    (hg : mapGet s.tasks taskId = some tk) (hpos : t2 - s.now > 0) :
    rescheduleTaskJS s taskId t2 = (some true, (rescheduleTask s taskId t2).2) := by
  simp only [rescheduleTaskJS, rescheduleTask, hg]
  rw [scheduleTaskJS_future _ _ (by simpa using hpos)]
  simp

/-! Claim C1. -/

/-- C1 as stated is false on the code: because `_executeTask` has no
try/finally, a task whose callback raises stays in the map after firing;
rescheduling it arms a new timer and its callback runs a second time.
Run: create task 1 due immediately with a raising callback, fire it,
reschedule it to an immediate due time, fire again — the callback of
task 1 is invoked twice over the lifetime of the registry. -/
theorem C1_counterexample :
    logIds (run init
      [.create 0 ⟨5, true⟩, .fire 1, .resched 1 0, .fire 2]) = [1, 1] := by
  decide

/-- C1 (amended): invoking `_executeTask` on an id absent from the map
is a no-op — no callback runs, the state is unchanged, no error is
raised — and in every run all of whose registered callbacks return
normally, each task id fires at most once across the lifetime of the
registry. -/
theorem C1_fire_noop_and_at_most_once :
    (∀ (s : Sys) (taskId : Nat), mapGet s.tasks taskId = none →
        executeTask s taskId = (s, false)) ∧
    (∀ evs : List Event, (∀ e ∈ evs, eventOk e) →
        (logIds (run init evs)).Nodup) :=
  ⟨fun s taskId h => executeTask_none s taskId h,
   fun evs hok => (invFull_run evs hok).logNodup⟩

/-- Witness for C1 at concrete inputs. -/
theorem C1_fire_noop_and_at_most_once_witness :
    executeTask init 3 = (init, false) ∧
    (logIds (run init [.create 0 ⟨5, false⟩, .fire 1, .fire 1])).Nodup :=
  ⟨C1_fire_noop_and_at_most_once.1 init 3 (by decide),
   C1_fire_noop_and_at_most_once.2 [.create 0 ⟨5, false⟩, .fire 1, .fire 1]
     (by decide)⟩

/-! Claim C2. -/

/-- C2 as stated is false on the `src/task.js` variant embedded in
`rollup.config.js`: creating a task whose target time is not in the
future executes its callback synchronously inside `createTask` — on
return the invocation log already holds the call and the task is
already gone. -/
theorem C2_counterexample :
    (createTaskJS init 0 ⟨7, false⟩).2.log = [(1, 7)] ∧
    (createTaskJS init 0 ⟨7, false⟩).2.tasks = [] := by
  decide

/-- C2 (amended): in the bundled `index.esm.mjs` variant the claim
holds — `createTask` never invokes any callback on the calling stack
frame and always arms exactly one new timer, for every target time
including past ones, and the re-arming of `rescheduleTask` likewise
invokes no callback and arms a fresh timer handle. -/
theorem C2_create_always_defers :
    (∀ (s : Sys) (t : Int) (cb : Callback),
        ((createTask s t cb).2).log = s.log ∧
        ((createTask s t cb).2).timers.length = s.timers.length + 1) ∧
    (∀ (s : Sys) (taskId : Nat) (t2 : Int) (tk : Task),
        mapGet s.tasks taskId = some tk → tk.id = taskId →
        ((rescheduleTask s taskId t2).2).log = s.log ∧
        s.nextTimerId ∈ ((rescheduleTask s taskId t2).2).timers.map Timer.tid) := by
  constructor
  · intro s t cb
    rw [createTask_eq]
    exact ⟨rfl, by simp⟩
  · intro s taskId t2 tk hg hid
    rw [rescheduleTask_some s taskId t2 tk hg hid]
    refine ⟨rfl, ?_⟩
    simp

/-- Witness for C2 at concrete inputs with past-due target times. -/
theorem C2_create_always_defers_witness :
    ((createTask init (-5) ⟨2, false⟩).2).log = init.log ∧
    ((rescheduleTask (createTask init (-5) ⟨1, false⟩).2 1 (-10)).2).log =
      ((createTask init (-5) ⟨1, false⟩).2).log :=
  ⟨(C2_create_always_defers.1 init (-5) ⟨2, false⟩).1,
   (C2_create_always_defers.2 (createTask init (-5) ⟨1, false⟩).2 1 (-10)
      ⟨1, -5, ⟨1, false⟩, some 1⟩ (by decide) (by decide)).1⟩

/-! Claim C3. -/

/-- C3 as stated is false on the code: `_executeTask` runs
`task.callback()` and only then `this.tasks.delete(taskId)` with no
try/finally, so when the callback raises, the deletion is skipped.
After firing task 1 (whose callback raises) the entry is still in the
map even though the invocation log shows the callback ran. -/
theorem C3_counterexample :
    mapGet (run init [.create 0 ⟨5, true⟩, .fire 1]).tasks 1 =
      some ⟨1, 0, ⟨5, true⟩, some 1⟩ ∧
    logIds (run init [.create 0 ⟨5, true⟩, .fire 1]) = [1] := by
  decide

/-- C3 (amended): when `fire` invokes a stored callback that returns
normally, the entry is removed afterwards and the registry holds no
entry for that id; when the callback raises, the error propagates
before the deletion, so the entry remains in the map (a dangling
entry). -/
theorem C3_removal_iff_callback_returns (s : Sys) (taskId : Nat) (tk : Task)
    (h : mapGet s.tasks taskId = some tk) :
    (tk.callback.throws = false →
        executeTask s taskId =
          ({ s with log := s.log ++ [(taskId, tk.callback.cbId)],
                    tasks := mapDelete s.tasks taskId }, false) ∧
        mapGet ((executeTask s taskId).1).tasks taskId = none) ∧
    (tk.callback.throws = true →
        executeTask s taskId =
          ({ s with log := s.log ++ [(taskId, tk.callback.cbId)] }, true) ∧
        mapGet ((executeTask s taskId).1).tasks taskId = some tk) := by
  constructor
  · intro ht
    refine ⟨executeTask_normal s taskId tk h ht, ?_⟩
    rw [executeTask_normal s taskId tk h ht]
    exact mapGet_mapDelete_self _ _
  · intro ht
    refine ⟨executeTask_throws s taskId tk h ht, ?_⟩
    rw [executeTask_throws s taskId tk h ht]
    exact h

/-- Witness for C3 at concrete inputs, one returning and one raising. -/
theorem C3_removal_iff_callback_returns_witness :
    mapGet ((executeTask (run init [.create 0 ⟨6, false⟩]) 1).1).tasks 1 = none ∧
    mapGet ((executeTask (run init [.create 0 ⟨6, true⟩]) 1).1).tasks 1 =
      some ⟨1, 0, ⟨6, true⟩, some 1⟩ :=
  ⟨((C3_removal_iff_callback_returns (run init [.create 0 ⟨6, false⟩]) 1
      ⟨1, 0, ⟨6, false⟩, some 1⟩ (by decide)).1 (by decide)).2,
   ((C3_removal_iff_callback_returns (run init [.create 0 ⟨6, true⟩]) 1
      ⟨1, 0, ⟨6, true⟩, some 1⟩ (by decide)).2 (by decide)).2⟩

/-! Claim C4. -/

/-- C4 as stated is false on the `src/task.js` variant embedded in
`rollup.config.js`: the first create, given a past-due target time and
a raising callback, executes inline and lets the exception escape
before `return taskId`, so the caller never receives id 1; the next
create returns 2 — the sequence of returned ids starts at 2, not 1. -/
theorem C4_counterexample :
    (createTaskJS init 0 ⟨9, true⟩).1 = none ∧
    (createTaskJS (createTaskJS init 0 ⟨9, true⟩).2 5 ⟨1, false⟩).1 = some 2 := by
  decide

/-- C4 (amended): in the bundled `index.esm.mjs` variant the claim
holds in full — `createTask` returns the current counter value and
appends it to the creation history, the counter grows by one on
creation and never decreases at any event, and over every event
sequence the returned ids are exactly `[1, 2, ..., nextTaskId - 1]`:
unique, strictly increasing from 1, and never reused even after fire,
cancel, or reschedule.  In the `src/task.js` variant the counter still
grows by exactly one per create and a create that returns at all
returns the pre-call counter value, so returned ids stay unique,
strictly increasing, and never reused — but a past-due create whose
callback raises consumes its id without returning it, so the returned
sequence can skip ids and need not start at 1. -/
theorem C4_ids_strictly_increasing :
    (∀ (s : Sys) (t : Int) (cb : Callback),
        (createTask s t cb).1 = s.nextTaskId ∧
        ((createTask s t cb).2).createdIds = s.createdIds ++ [s.nextTaskId] ∧
        ((createTask s t cb).2).nextTaskId = s.nextTaskId + 1) ∧
    (∀ (s : Sys) (e : Event), s.nextTaskId ≤ (step s e).nextTaskId) ∧
    (∀ evs : List Event,
        (run init evs).createdIds =
          (List.range ((run init evs).nextTaskId - 1)).map (· + 1) ∧
        (run init evs).createdIds.Pairwise (· < ·)) ∧
    (∀ (s : Sys) (t : Int) (cb : Callback),
        ((createTaskJS s t cb).1 = some s.nextTaskId ∨
          (createTaskJS s t cb).1 = none) ∧
        ((createTaskJS s t cb).2).nextTaskId = s.nextTaskId + 1) := by
  refine ⟨?_, ?_, ?_, ?_⟩
  · intro s t cb
    rw [createTask_eq]
    exact ⟨rfl, rfl, rfl⟩
  · intro s e
    cases e with
    | create t cb =>
        show s.nextTaskId ≤ ((createTask s t cb).2).nextTaskId
        rw [createTask_eq]
        exact Nat.le_succ _
    | cancel taskId =>
        show s.nextTaskId ≤ ((cancelTask s taskId).2).nextTaskId
        rw [(cancelTask_fields s taskId).1]
    | resched taskId t2 =>
        show s.nextTaskId ≤ ((rescheduleTask s taskId t2).2).nextTaskId
        rw [(rescheduleTask_fields s taskId t2).1]
    | snapshot => exact Nat.le_refl _
    | fire tid =>
        show s.nextTaskId ≤ (fireTimer s tid).nextTaskId
        rw [(fireTimer_fields s tid).1]
    | tick d => exact Nat.le_refl _
  · intro evs
    have inv := invBase_run evs
    refine ⟨inv.created, ?_⟩
    rw [inv.created]
    exact List.pairwise_map.2
      ((List.pairwise_lt_range _).imp (fun h => Nat.add_lt_add_right h 1))
  · intro s t cb
    refine ⟨?_, createTaskJS_nextTaskId s t cb⟩
    cases hth : cb.throws with
    | false => exact Or.inl (createTaskJS_ok s t cb hth)
    | true =>
        by_cases hpos : t - s.now > 0
        · exact Or.inl (createTaskJS_some_future s t cb hpos)
        · exact Or.inr (createTaskJS_none s t cb hth hpos)

/-! Claim C5. -/

/-- C5: `cancelTask` on an unknown id returns `false` with the state
fully unchanged; on a present id it returns `true`, removes the entry,
and disarms the stored timer handle; it is a total function, so it never
raises.  Moreover, after a successful cancel on a reachable state, the
id never reappears in the map under any later events, its callback is
never invoked afterwards, and every later `cancelTask` or
`rescheduleTask` on that id returns `false`. -/
theorem C5_cancel_semantics :
    (∀ (s : Sys) (taskId : Nat), mapGet s.tasks taskId = none →
        cancelTask s taskId = (false, s)) ∧
    (∀ (s : Sys) (taskId : Nat) (tk : Task), mapGet s.tasks taskId = some tk →
        (cancelTask s taskId).1 = true ∧
        mapGet ((cancelTask s taskId).2).tasks taskId = none ∧
        (∀ h0, tk.timeoutId = some h0 →
          h0 ∉ ((cancelTask s taskId).2).timers.map Timer.tid)) ∧
    (∀ (evs1 evs2 : List Event) (taskId : Nat),
        (cancelTask (run init evs1) taskId).1 = true →
        taskId ∉ keysOf (run ((cancelTask (run init evs1) taskId).2) evs2).tasks ∧
        (logIds (run ((cancelTask (run init evs1) taskId).2) evs2)).count taskId =
          (logIds (run init evs1)).count taskId ∧
        (cancelTask (run ((cancelTask (run init evs1) taskId).2) evs2) taskId).1
          = false ∧
        (∀ t2, (rescheduleTask (run ((cancelTask (run init evs1) taskId).2) evs2)
          taskId t2).1 = false)) := by
  refine ⟨?_, ?_, ?_⟩
  · intro s taskId h
    exact cancelTask_none s taskId h
  · intro s taskId tk hg
    rw [cancelTask_some s taskId tk hg]
    refine ⟨rfl, mapGet_mapDelete_self _ _, ?_⟩
    intro h0 hh0
    rw [hh0]
    intro hc
    rcases List.mem_map.1 hc with ⟨tmr, hmem, htid⟩
    have hkept := (List.mem_filter.1 hmem).2
    rw [htid] at hkept
    simp at hkept
  · intro evs1 evs2 taskId hsucc
    have inv1 : InvBase (run init evs1) := invBase_run evs1
    cases hg : mapGet (run init evs1).tasks taskId with
    | none =>
        rw [cancelTask_none _ taskId hg] at hsucc
        exact absurd hsucc (by simp)
    | some tk =>
        have heq := cancelTask_some (run init evs1) taskId tk hg
        have inv2 : InvBase (cancelTask (run init evs1) taskId).2 :=
          invBase_cancelTask inv1 taskId
        have hlt : taskId < ((cancelTask (run init evs1) taskId).2).nextTaskId := by
          rw [heq]
          exact inv1.keysLt taskId (mapGet_mem_keysOf _ _ _ hg)
        have hnk : taskId ∉ keysOf ((cancelTask (run init evs1) taskId).2).tasks := by
          rw [heq]
          show taskId ∉ keysOf (mapDelete (run init evs1).tasks taskId)
          rw [keysOf_mapDelete]
          intro hc
          have h2 := (List.mem_filter.1 hc).2
          simp at h2
        have hlog2 : logIds ((cancelTask (run init evs1) taskId).2) =
            logIds (run init evs1) := by
          rw [heq]
          rfl
        obtain ⟨g1, g2, g3⟩ := dead_id_stable_run inv2 hlt hnk evs2
        have hnone : mapGet (run ((cancelTask (run init evs1) taskId).2) evs2).tasks
            taskId = none := (mapGet_eq_none_iff _ _).2 g2
        refine ⟨g2, ?_, ?_, ?_⟩
        · rw [g3, hlog2]
        · rw [cancelTask_none _ taskId hnone]
        · intro t2
          rw [rescheduleTask_none _ taskId t2 hnone]

/-- Witness for C5 at concrete inputs. -/
theorem C5_cancel_semantics_witness :
    cancelTask init 9 = (false, init) ∧
    mapGet ((cancelTask (run init [.create 5 ⟨2, false⟩]) 1).2).tasks 1 = none ∧
    1 ∉ keysOf (run ((cancelTask (run init [.create 5 ⟨2, false⟩]) 1).2)
        [.create 7 ⟨3, false⟩, .fire 2]).tasks :=
  ⟨C5_cancel_semantics.1 init 9 (by decide),
   (C5_cancel_semantics.2.1 (run init [.create 5 ⟨2, false⟩]) 1
      ⟨1, 5, ⟨2, false⟩, some 1⟩ (by decide)).2.1,
   (C5_cancel_semantics.2.2 [.create 5 ⟨2, false⟩]
      [.create 7 ⟨3, false⟩, .fire 2] 1 (by decide)).1⟩

/-! Claim C6. -/

/-- C6 as stated is false on the `src/task.js` variant embedded in
`rollup.config.js`: rescheduling an existing task to a target time not
in the future executes the callback inline and removes the task, so the
task does not stay present through a successful reschedule.  Create
task 1 due at 5, then reschedule it to 0: the call returns `true` yet
afterwards the map has no entry for id 1. -/
theorem C6_counterexample :
    (rescheduleTaskJS (createTaskJS init 5 ⟨3, false⟩).2 1 0).1 = some true ∧
    mapGet (rescheduleTaskJS (createTaskJS init 5 ⟨3, false⟩).2 1 0).2.tasks 1 =
      none := by
  decide

/-- C6 (amended): in the bundled `index.esm.mjs` variant the claim
holds in full — `rescheduleTask` on an existing task returns `true`,
keeps the id with the same callback, updates only the target time and
the stored handle, keeps the key set unchanged (the task stays
present), arms a fresh timer for the new due time, and disarms the old
handle; on an unknown id it returns `false` with no effect.  In the
`src/task.js` variant the same behaviour holds only when the new target
time is in the future. -/
theorem C6_reschedule_behaviour :
    (∀ (s : Sys) (taskId : Nat) (t2 : Int) (tk : Task),
        mapGet s.tasks taskId = some tk → tk.id = taskId →
        (rescheduleTask s taskId t2).1 = true ∧
        mapGet ((rescheduleTask s taskId t2).2).tasks taskId =
          some { tk with targetTime := t2, timeoutId := some s.nextTimerId } ∧
        keysOf ((rescheduleTask s taskId t2).2).tasks = keysOf s.tasks ∧
        (⟨s.nextTimerId, dueAt s t2, taskId⟩ : Timer) ∈
          ((rescheduleTask s taskId t2).2).timers ∧
        (∀ h0, tk.timeoutId = some h0 → h0 < s.nextTimerId →
          h0 ∉ ((rescheduleTask s taskId t2).2).timers.map Timer.tid)) ∧
    (∀ (s : Sys) (taskId : Nat) (t2 : Int),
        mapGet s.tasks taskId = none → rescheduleTask s taskId t2 = (false, s)) ∧
    (∀ (s : Sys) (taskId : Nat) (t2 : Int) (tk : Task),
        mapGet s.tasks taskId = some tk → t2 - s.now > 0 →
        (rescheduleTaskJS s taskId t2).1 = some true ∧
        (rescheduleTaskJS s taskId t2).2 = (rescheduleTask s taskId t2).2) := by
  refine ⟨?_, ?_, ?_⟩
  · intro s taskId t2 tk hg hid
    rw [rescheduleTask_some s taskId t2 tk hg hid]
    refine ⟨rfl, mapGet_mapSet_self _ _ _,
      keysOf_mapSet_mem _ _ _ (mapGet_mem_keysOf _ _ _ hg),
      List.mem_append.2 (Or.inr (List.mem_singleton.2 rfl)), ?_⟩
    intro h0 hh0 hlt hc
    rw [List.map_append] at hc
    rcases List.mem_append.1 hc with hc | hc
    · rcases List.mem_map.1 hc with ⟨tmr, hmem, htid⟩
      rw [hh0] at hmem
      have hkept := (List.mem_filter.1 hmem).2
      rw [htid] at hkept
      simp at hkept
    · have : h0 = s.nextTimerId := by simpa using hc
      exact absurd this (Nat.ne_of_lt hlt)
  · intro s taskId t2 h
    exact rescheduleTask_none s taskId t2 h
  · intro s taskId t2 tk hg hpos
    rw [rescheduleTaskJS_future s taskId t2 tk hg hpos]
    exact ⟨rfl, rfl⟩

/-- Witness for C6 at concrete inputs. -/
theorem C6_reschedule_behaviour_witness :
    (rescheduleTask (run init [.create 5 ⟨2, false⟩]) 1 9).1 = true ∧
    rescheduleTask init 4 9 = (false, init) ∧
    (rescheduleTaskJS (run init [.create 5 ⟨2, false⟩]) 1 9).1 = some true :=
  ⟨(C6_reschedule_behaviour.1 (run init [.create 5 ⟨2, false⟩]) 1 9
      ⟨1, 5, ⟨2, false⟩, some 1⟩ (by decide) (by decide)).1,
   C6_reschedule_behaviour.2.1 init 4 9 (by decide),
   (C6_reschedule_behaviour.2.2 (run init [.create 5 ⟨2, false⟩]) 1 9
      ⟨1, 5, ⟨2, false⟩, some 1⟩ (by decide) (by decide)).1⟩

/-! Claim C7. -/

/-- C7 as stated is false on the `src/task.js` variant embedded in
`rollup.config.js`: a past-due target time triggers inline execution
inside `createTask`, so when the callback raises, the exception escapes
`createTask` before `return taskId` — the caller gets no id. -/
theorem C7_counterexample :
    (createTaskJS init 0 ⟨9, true⟩).1 = none := by
  decide

/-- C7 (amended): in the bundled `index.esm.mjs` variant `createTask`
is total for every target time (past included) and every callback value
and always returns the freshly allocated id with the record inserted.
In the `src/task.js` variant `createTask` returns the freshly allocated
id on every input except exactly when the target time is not in the
future and the callback raises: then the inline execution lets the
callback exception escape `createTask` before `return taskId`, and the
caller gets no id. -/
theorem C7_create_never_fails :
    (∀ (s : Sys) (t : Int) (cb : Callback),
        (createTask s t cb).1 = s.nextTaskId ∧
        mapGet ((createTask s t cb).2).tasks s.nextTaskId =
          some ⟨s.nextTaskId, t, cb, some s.nextTimerId⟩) ∧
    (∀ (s : Sys) (t : Int) (cb : Callback),
        cb.throws = false ∨ t - s.now > 0 →
        (createTaskJS s t cb).1 = some s.nextTaskId) ∧
    (∀ (s : Sys) (t : Int) (cb : Callback),
        cb.throws = true → t - s.now ≤ 0 →
        (createTaskJS s t cb).1 = none) := by
  refine ⟨?_, ?_, ?_⟩
  · intro s t cb
    rw [createTask_eq]
    exact ⟨rfl, mapGet_mapSet_self _ _ _⟩
  · intro s t cb h
    rcases h with h | h
    · exact createTaskJS_ok s t cb h
    · exact createTaskJS_some_future s t cb h
  · intro s t cb hth hpast
    exact createTaskJS_none s t cb hth (not_lt.2 hpast)

/-- Witness for C7: a past-due create with a raising callback in the
bundled variant, both success regions of the `src/task.js` variant
(non-raising past-due, raising future-due), and its single failure
region (raising past-due). -/
theorem C7_create_never_fails_witness :
    (createTask init (-7) ⟨1, true⟩).1 = 1 ∧
    (createTaskJS init (-7) ⟨1, false⟩).1 = some 1 ∧
    (createTaskJS init 5 ⟨9, true⟩).1 = some 1 ∧
    (createTaskJS init 0 ⟨8, true⟩).1 = none :=
  ⟨(C7_create_never_fails.1 init (-7) ⟨1, true⟩).1,
   C7_create_never_fails.2.1 init (-7) ⟨1, false⟩ (Or.inl (by decide)),
   C7_create_never_fails.2.1 init 5 ⟨9, true⟩ (Or.inr (by decide)),
   C7_create_never_fails.2.2 init 0 ⟨8, true⟩ (by decide) (by decide)⟩

/-! Claim C8. -/

lemma map_congr_mem {α β : Type} (l : List α) (f g : α → β)
    (h : ∀ a ∈ l, f a = g a) : l.map f = l.map g := by
  induction l with
  | nil => rfl
  | cons x rest ih =>
      rw [List.map_cons, List.map_cons, h x (List.mem_cons_self _ _),
        ih (fun a ha => h a (List.mem_cons.2 (Or.inr ha)))]

lemma mapSet_not_mem_eq (m : List (Nat × Task)) (k : Nat) (v : Task)
    (h : k ∉ keysOf m) : mapSet m k v = m ++ [(k, v)] := by
  induction m with
  | nil => rfl
  | cons p rest ih =>
      have hp : p.1 ≠ k := by
        intro hc
        exact h (by rw [keysOf_cons]; exact List.mem_cons.2 (Or.inl hc.symm))
      have hr : k ∉ keysOf rest := by
        intro hc
        exact h (by rw [keysOf_cons]; exact List.mem_cons.2 (Or.inr hc))
      rw [mapSet_cons_ne p rest k v hp, ih hr]
      rfl

lemma mapSet_mem_map (m : List (Nat × Task)) (k : Nat) (v : Task)
    (hnd : (keysOf m).Nodup) (hmem : k ∈ keysOf m) :
    mapSet m k v = m.map (fun p => if p.1 = k then (k, v) else p) := by
  induction m with
  | nil => simp [keysOf] at hmem
  | cons p rest ih =>
      rw [keysOf_cons] at hnd hmem
      by_cases hp : p.1 = k
      · rw [mapSet_cons_eq p rest k v hp, List.map_cons, if_pos hp]
        have hkr : k ∉ keysOf rest := by
          intro hc
          exact (List.nodup_cons.1 hnd).1 (hp ▸ hc)
        have hrest : rest.map (fun p => if p.1 = k then (k, v) else p) = rest := by
          have h1 : rest.map (fun p => if p.1 = k then (k, v) else p) =
              rest.map id := by
            apply map_congr_mem
            intro a ha
            have hane : a.1 ≠ k := by
              intro hc
              exact hkr (hc ▸ List.mem_map.2 ⟨a, ha, rfl⟩)
            simp [hane]
          rw [h1, List.map_id]
        rw [hrest]
      · have hmr : k ∈ keysOf rest := by
          rcases List.mem_cons.1 hmem with h1 | h1
          · exact absurd h1.symm hp
          · exact h1
        rw [mapSet_cons_ne p rest k v hp, List.map_cons, if_neg hp,
          ih (List.nodup_cons.1 hnd).2 hmr]

lemma getTasks_mapDelete (m : List (Nat × Task)) (taskId : Nat)
    (hids : ∀ p ∈ m, p.2.id = p.1) :
    (mapDelete m taskId).map (fun p => (p.2.id, p.2.targetTime)) =
      (m.map (fun p => (p.2.id, p.2.targetTime))).filter
        (fun q => q.1 != taskId) := by
  induction m with
  | nil => rfl
  | cons p rest ih =>
      have hid := hids p (List.mem_cons_self _ _)
      have hrest : ∀ q ∈ rest, q.2.id = q.1 :=
        fun q hq => hids q (List.mem_cons.2 (Or.inr hq))
      by_cases hp : p.1 = taskId
      · rw [mapDelete_cons_eq p rest taskId hp, ih hrest, List.map_cons,
          List.filter_cons]
        simp [hid, hp]
      · rw [mapDelete_cons_ne p rest taskId hp, List.map_cons, List.map_cons,
          List.filter_cons, ih hrest]
        simp [hid, hp]

/-- C8: a snapshot is a pure function of the state — taking it changes
nothing — and it lists exactly one `(id, targetTime)` pair per entry of
the map, in map order: each entry is listed, the lengths agree, a create
appends the new pair at the end, a cancel removes exactly the pair of
the cancelled id, and a reschedule replaces in place the pair of the
rescheduled id with its new target time.  Only id and targetTime appear
in the result type; callbacks and timer handles are not exposed. -/
theorem C8_snapshot_behaviour :
    (∀ s : Sys, step s .snapshot = s) ∧
    (∀ (s : Sys) (p : Nat × Task), p ∈ s.tasks →
        (p.2.id, p.2.targetTime) ∈ getTasks s) ∧
    (∀ s : Sys, (getTasks s).length = s.tasks.length) ∧
    (∀ (s : Sys) (t : Int) (cb : Callback), InvBase s →
        getTasks ((createTask s t cb).2) = getTasks s ++ [(s.nextTaskId, t)]) ∧
    (∀ (s : Sys) (taskId : Nat) (tk : Task), InvBase s →
        mapGet s.tasks taskId = some tk →
        getTasks ((cancelTask s taskId).2) =
          (getTasks s).filter (fun q => q.1 != taskId)) ∧
    (∀ (s : Sys) (taskId : Nat) (t2 : Int) (tk : Task), InvBase s →
        mapGet s.tasks taskId = some tk →
        getTasks ((rescheduleTask s taskId t2).2) =
          (getTasks s).map (fun q => if q.1 = taskId then (taskId, t2) else q)) := by
  refine ⟨fun s => rfl, ?_, fun s => List.length_map _ _, ?_, ?_, ?_⟩
  · intro s p hp
    exact List.mem_map.2 ⟨p, hp, rfl⟩
  · intro s t cb inv
    rw [createTask_eq]
    show (mapSet s.tasks s.nextTaskId _).map _ = _
    rw [mapSet_not_mem_eq _ _ _ (invBase_fresh_key inv), List.map_append]
    rfl
  · intro s taskId tk inv hg
    rw [cancelTask_some s taskId tk hg]
    exact getTasks_mapDelete s.tasks taskId inv.idsMatch
  · intro s taskId t2 tk inv hg
    have hid : tk.id = taskId := inv.idsMatch (taskId, tk) (mapGet_mem _ _ _ hg)
    rw [rescheduleTask_some s taskId t2 tk hg hid]
    show (mapSet s.tasks taskId _).map _ = _
    rw [mapSet_mem_map _ _ _ inv.keysNodup (mapGet_mem_keysOf _ _ _ hg),
      List.map_map]
    unfold getTasks
    rw [List.map_map]
    apply map_congr_mem
    intro p hp
    have hpid : p.2.id = p.1 := inv.idsMatch p hp
    by_cases hk : p.1 = taskId
    · simp [Function.comp, hk, hpid, hid]
    · have : p.2.id ≠ taskId := by
        rw [hpid]
        exact hk
      simp [Function.comp, hk, hpid, this]

/-- Witness for C8 at concrete inputs. -/
theorem C8_snapshot_behaviour_witness :
    getTasks ((createTask (run init [.create 5 ⟨2, false⟩]) 9 ⟨3, false⟩).2) =
      getTasks (run init [.create 5 ⟨2, false⟩]) ++ [(2, 9)] ∧
    getTasks ((cancelTask (run init [.create 5 ⟨2, false⟩]) 1).2) =
      (getTasks (run init [.create 5 ⟨2, false⟩])).filter (fun q => q.1 != 1) ∧
    getTasks ((rescheduleTask (run init [.create 5 ⟨2, false⟩]) 1 11).2) =
      (getTasks (run init [.create 5 ⟨2, false⟩])).map
        (fun q => if q.1 = 1 then (1, 11) else q) :=
  ⟨C8_snapshot_behaviour.2.2.2.1 (run init [.create 5 ⟨2, false⟩]) 9 ⟨3, false⟩
     (invBase_run [.create 5 ⟨2, false⟩]),
   C8_snapshot_behaviour.2.2.2.2.1 (run init [.create 5 ⟨2, false⟩]) 1
     ⟨1, 5, ⟨2, false⟩, some 1⟩ (invBase_run [.create 5 ⟨2, false⟩]) (by decide),
   C8_snapshot_behaviour.2.2.2.2.2 (run init [.create 5 ⟨2, false⟩]) 1 11
     ⟨1, 5, ⟨2, false⟩, some 1⟩ (invBase_run [.create 5 ⟨2, false⟩]) (by decide)⟩

/-! Claim C9. -/

/-- C9 as stated is false on the code, again because `_executeTask` has
no try/finally: after firing a task whose callback raises, the task is
still in the map although no pending timer exists for it and it is not
mid-execution, and an executed task has not been removed. -/
theorem C9_counterexample :
    1 ∈ keysOf (run init [.create 0 ⟨8, true⟩, .fire 1]).tasks ∧
    (run init [.create 0 ⟨8, true⟩, .fire 1]).timers = [] := by
  decide

/-- C9 (amended): over every event sequence all of whose registered
callbacks return normally, a task id is in the map if and only if a
pending timer for it exists — executed, cancelled, and superseded tasks
are removed and keep no record. -/
theorem C9_membership_iff_live_timer (evs : List Event)
    (hok : ∀ e ∈ evs, eventOk e) (taskId : Nat) :
    taskId ∈ keysOf (run init evs).tasks ↔
      taskId ∈ liveTaskIds (run init evs) := by
  have inv := invFull_run evs hok
  constructor
  · intro h
    rcases List.mem_map.1 h with ⟨p, hp, hk⟩
    obtain ⟨tmr, htm, h1, h2⟩ := inv.tasksWF p hp
    exact List.mem_map.2 ⟨tmr, htm, h2.trans hk⟩
  · intro h
    rcases List.mem_map.1 h with ⟨tmr, htm, hk⟩
    obtain ⟨tk, hg, h1⟩ := inv.base.timersTask tmr htm
    exact hk ▸ mapGet_mem_keysOf _ _ _ hg

/-- Witness for C9 at a concrete event sequence. -/
theorem C9_membership_iff_live_timer_witness :
    (∀ e ∈ [Event.create 5 ⟨2, false⟩], eventOk e) ∧
    (1 ∈ keysOf (run init [Event.create 5 ⟨2, false⟩]).tasks ↔
      1 ∈ liveTaskIds (run init [Event.create 5 ⟨2, false⟩])) :=
  ⟨by decide,
   C9_membership_iff_live_timer [Event.create 5 ⟨2, false⟩] (by decide) 1⟩

/-! Claim C10. -/

/-- C10 as stated is false on the `src/task.js` variant embedded in
`rollup.config.js`: a successful reschedule to a past target time
executes the task inline and deletes it, so the key set of the mapping
changes.  Create task 1 due at 10, reschedule it to -3: the call
returns `true`, yet the key set shrinks from `[1]` to `[]`. -/
theorem C10_counterexample :
    (rescheduleTaskJS (createTaskJS init 10 ⟨4, false⟩).2 1 (-3)).1 = some true ∧
    keysOf (rescheduleTaskJS (createTaskJS init 10 ⟨4, false⟩).2 1 (-3)).2.tasks
      = [] ∧
    keysOf (createTaskJS init 10 ⟨4, false⟩).2.tasks = [1] := by
  decide

/-- C10 (amended): in the bundled `index.esm.mjs` variant the frame
property holds — a successful reschedule leaves the id counter, the
creation history, the invocation log, the clock, the key set, and every
other entry of the map unchanged, and rewrites the targeted entry only
in its targetTime and stored timer handle (same id, same callback);
a failed reschedule returns `false` and changes nothing at all. -/
theorem C10_reschedule_frame (s : Sys) (taskId : Nat) (t2 : Int) :
    (∀ tk : Task, mapGet s.tasks taskId = some tk → tk.id = taskId →
        ((rescheduleTask s taskId t2).2).nextTaskId = s.nextTaskId ∧
        ((rescheduleTask s taskId t2).2).createdIds = s.createdIds ∧
        ((rescheduleTask s taskId t2).2).log = s.log ∧
        ((rescheduleTask s taskId t2).2).now = s.now ∧
        keysOf ((rescheduleTask s taskId t2).2).tasks = keysOf s.tasks ∧
        (∀ k, k ≠ taskId →
          mapGet ((rescheduleTask s taskId t2).2).tasks k = mapGet s.tasks k) ∧
        mapGet ((rescheduleTask s taskId t2).2).tasks taskId =
          some { tk with targetTime := t2, timeoutId := some s.nextTimerId }) ∧
    (mapGet s.tasks taskId = none → rescheduleTask s taskId t2 = (false, s)) := by
  constructor
  · intro tk hg hid
    rw [rescheduleTask_some s taskId t2 tk hg hid]
    refine ⟨rfl, rfl, rfl, rfl,
      keysOf_mapSet_mem _ _ _ (mapGet_mem_keysOf _ _ _ hg), ?_,
      mapGet_mapSet_self _ _ _⟩
    intro k hk
    exact mapGet_mapSet_ne _ _ _ _ hk
  · intro h
    exact rescheduleTask_none s taskId t2 h

/-- Witness for C10 at concrete inputs. -/
theorem C10_reschedule_frame_witness :
    ((rescheduleTask (run init [.create 5 ⟨2, false⟩]) 1 8).2).log =
      (run init [.create 5 ⟨2, false⟩]).log ∧
    rescheduleTask init 6 8 = (false, init) :=
  ⟨((C10_reschedule_frame (run init [.create 5 ⟨2, false⟩]) 1 8).1
      ⟨1, 5, ⟨2, false⟩, some 1⟩ (by decide) (by decide)).2.2.1,
   (C10_reschedule_frame init 6 8).2 (by decide)⟩

end Tasker
